import Mathlib

/-!
# Verification of the `object-helpers` path-access core

This file gives a shallow embedding, in Lean 4, of the JavaScript module that
implements string-path-addressed reads and writes into nested composite values
(`findDirectPropInObject`, `findPropInObject`, `queryObject`, `mergeObjects`,
`deepCopy`, `deepCompare`), together with theorems about that embedding.

Modelling choices (all justified against the ES-module source, which runs in
strict mode):

* A JavaScript value is modelled by the inductive type `JSValue`.  Numbers are
  modelled as integers (every number appearing in the claims is an integer and
  no arithmetic is performed on them by the library).  Function values (value
  transformers) are not representable; every claim treated here is about
  literal (non-function) replacements, and the source's
  `getObjectType(x) === 'function'` tests are therefore always false on the
  modelled universe.
* Arrays are modelled as dense lists of elements.  The source re-reads an
  array only through the spread `[...arr]`, `Object.keys`, indexing, `length`
  and `join`, and the only hole-creating operations here (index writes past
  the end, `length` growth) produce holes that spread materialises as
  `undefined`, that `Object.keys` skips, and that `join` renders exactly like
  `undefined` (the empty string); the model stores such holes as `undefined`
  elements, which is observationally equal for every operation of this
  library.
* Objects are modelled as insertion-ordered association lists.  A JavaScript
  object never contains a duplicate key; key update rewrites the first (i.e.
  the unique) occurrence in place, key deletion removes every occurrence.
* Outcomes are explicit: operations return `Except JsErr`.  `JsErr.typeError`
  and `JsErr.rangeError` model the exceptions the strict-mode source throws
  (member access on `null`/`undefined`, property creation or assignment on a
  primitive, a dynamic `toString()` call on a value whose own `toString` is
  not callable, an invalid array-`length` assignment).  `JsErr.unmodeled`
  marks executions that leave the modelled value fragment: member reads that
  resolve through the prototype chain (`Object.prototype.toString`, the
  `__proto__` accessor and their kin are host built-ins, code absent from
  this repository, and once an execution descends into them its behaviour is
  the host's, not this library's), mutation of an object's prototype,
  creation of a non-index own string property on an array, and the wildcard
  write over a mapping owning a literal `"*"` key (on which the source
  recurses without bound).  An `unmodeled` outcome is the model declining to
  assign a result, never a claimed program behaviour: every theorem about a
  positive outcome carries hypotheses that place its inputs inside the
  modelled fragment, so nothing is asserted about the program beyond that
  fragment.  The prototype-name lists used for the fragment boundary are a
  conservative superset of the ES2023 own property names of the relevant
  prototypes (Annex B included); listing a name some engine lacks only
  shrinks the fragment, it cannot misstate a result inside it.
* String-to-number coercions (`Array.prototype.splice` on a string argument,
  array-`length` assignment) follow the `Number(string)` grammar with exact
  integer arithmetic.  Where IEEE-754 reading would round (magnitudes at or
  above `2 ^ 53`), every consumer here either clamps to the array length
  (below `2 ^ 32`) or range-errors, so the exact value and the rounded value
  give the same outcome; the infinities are represented by the sentinels
  `± 2 ^ 53`, which clamp identically.
* The value model is purely functional, so the shallow clone `[...obj]` /
  `{...obj}` is the identity on values and `copyByRef` has no observable
  effect on results; it is kept as a parameter for interface fidelity.
  Mutation and aliasing (the `copyByRef` contract itself) are treated
  separately by the store-based embedding `H` further below, in which every
  composite lives at an address of an explicit store.
-/

set_option linter.unusedVariables false

namespace ObjHelpers

/-- A JavaScript value, as far as the object-helpers core can observe it. -/
inductive JSValue where
  | undef
  | nul
  | boolean (b : Bool)
  | num (n : Int)
  | str (s : String)
  | arr (elems : List JSValue)
  | obj (fields : List (String × JSValue))

/-- Function `getObjectType` from `get-type.js` / the module header:
`Object.prototype.toString.call(obj)` lower-cased and stripped of
`[object ...]`. -/
def getObjectType : JSValue → String
  | .undef => "undefined"
  | .nul => "null"
  | .boolean _ => "boolean"
  | .num _ => "number"
  | .str _ => "string"
  | .arr _ => "array"
  | .obj _ => "object"

/-- Whether a value is the undefined marker. -/
def isUndef : JSValue → Bool
  | .undef => true
  | _ => false

/-- Whether a value is a composite (array or object). -/
def isComposite : JSValue → Bool
  | .arr _ => true
  | .obj _ => true
  | _ => false

/-- JavaScript truthiness of a modelled value (used for `result[prop] || {}`).
`NaN` is not representable, numbers are integers, so falsy values are exactly
`undefined`, `null`, `false`, `0` and `""`. -/
def truthy : JSValue → Bool
  | .undef => false
  | .nul => false
  | .boolean b => b
  | .num n => n != 0
  | .str s => s ≠ ""
  | _ => true

/-- Outcome classification of a modelled run.  `typeError` and `rangeError`
are the exceptions the strict-mode source throws; `unmodeled` marks an
execution that leaves the modelled value fragment (see the header). -/
inductive JsErr where
  | typeError
  | rangeError
  | unmodeled (reason : String)
deriving DecidableEq

/-- Own property names of `Object.prototype` (ES2023): member access under
one of these names on a plain object with no such own key resolves through
the prototype chain to a host built-in (a native function, or the
`__proto__` accessor pair), which is outside the modelled fragment. -/
def objectProtoKeys : List String :=
  ["constructor", "hasOwnProperty", "isPrototypeOf", "propertyIsEnumerable",
   "toLocaleString", "toString", "valueOf", "__proto__",
   "__defineGetter__", "__defineSetter__", "__lookupGetter__",
   "__lookupSetter__"]

/-- Own method names of `Array.prototype` (ES2023). -/
def arrayProtoMethodKeys : List String :=
  ["at", "concat", "constructor", "copyWithin", "entries", "every", "fill",
   "filter", "find", "findIndex", "findLast", "findLastIndex", "flat",
   "flatMap", "forEach", "includes", "indexOf", "join", "keys",
   "lastIndexOf", "map", "pop", "push", "reduce", "reduceRight", "reverse",
   "shift", "slice", "some", "sort", "splice", "toLocaleString",
   "toReversed", "toSorted", "toSpliced", "toString", "unshift", "values",
   "with"]

/-- Own method names of `String.prototype` (ES2023, Annex B included). -/
def stringProtoMethodKeys : List String :=
  ["anchor", "at", "big", "blink", "bold", "charAt", "charCodeAt",
   "codePointAt", "concat", "constructor", "endsWith", "fixed", "fontcolor",
   "fontsize", "includes", "indexOf", "isWellFormed", "italics",
   "lastIndexOf", "link", "localeCompare", "match", "matchAll", "normalize",
   "padEnd", "padStart", "repeat", "replace", "replaceAll", "search",
   "slice", "small", "split", "startsWith", "strike", "sub", "substr",
   "substring", "sup", "toLocaleLowerCase", "toLocaleUpperCase",
   "toLowerCase", "toString", "toUpperCase", "toWellFormed", "trim",
   "trimEnd", "trimStart", "valueOf"]

/-- Own method names of `Number.prototype` (ES2023). -/
def numberProtoMethodKeys : List String :=
  ["constructor", "toExponential", "toFixed", "toLocaleString",
   "toPrecision", "toString", "valueOf"]

/-- Own method names of `Boolean.prototype` (ES2023). -/
def booleanProtoMethodKeys : List String :=
  ["constructor", "toString", "valueOf"]

/-- Value of a canonical array-index string (`"0"`, `"17"`, ... — all digits,
no redundant leading zero, value below `2 ^ 32 - 1`), `none` otherwise.
This is exactly the class of property keys that address array elements in
JavaScript; a canonical numeric string at or above `2 ^ 32 - 1` is an
ordinary string property key. -/
def toArrayIndex (s : String) : Option Nat :=
  match s.data with
  | [] => none
  | c :: cs =>
    if (c :: cs).all Char.isDigit ∧ (c ≠ '0' ∨ cs = []) then
      let i := (c :: cs).foldl (fun n ch => 10 * n + (ch.toNat - 48)) 0
      if i < 2 ^ 32 - 1 then some i else none
    else none

/-! ## The `Number(string)` grammar

`Array.prototype.splice` coerces its first argument with
`ToIntegerOrInfinity(Number(arg))`, and an array-`length` assignment
validates its value with `ToUint32(ToNumber(v)) == ToNumber(v)`.  The parser
below reads the `StringNumericLiteral` grammar exactly (whitespace trimming,
signed decimal with fraction and exponent, `Infinity`, and the unsigned
hexadecimal, octal and binary forms), producing the truncated integer value
together with an exactness flag. -/

/-- Parse result of `Number(string)`: not-a-number, an infinity, or a finite
value given by its truncation toward zero plus a flag telling whether the
value was exactly that integer. -/
inductive NumParse where
  | nan
  | posInf
  | negInf
  | val (t : Int) (exact : Bool)
deriving DecidableEq

/-- The `StrWhiteSpaceChar` class: JavaScript whitespace and line
terminators. -/
def jsSpaceChar (c : Char) : Bool :=
  c == ' ' || c == Char.ofNat 9 || c == Char.ofNat 10 || c == Char.ofNat 13 ||
  c == Char.ofNat 11 || c == Char.ofNat 12 ||
  c == Char.ofNat 0xa0 || c == Char.ofNat 0xfeff ||
  c == Char.ofNat 0x1680 ||
  decide (0x2000 ≤ c.toNat ∧ c.toNat ≤ 0x200a) ||
  c == Char.ofNat 0x2028 || c == Char.ofNat 0x2029 ||
  c == Char.ofNat 0x202f || c == Char.ofNat 0x205f || c == Char.ofNat 0x3000

def digitsVal (cs : List Char) : Nat :=
  cs.foldl (fun n c => 10 * n + (c.toNat - 48)) 0

def isHexDigitC (c : Char) : Bool :=
  c.isDigit || (decide ('a' ≤ c) && decide (c ≤ 'f')) ||
    (decide ('A' ≤ c) && decide (c ≤ 'F'))

def hexDigitVal (c : Char) : Nat :=
  if c.isDigit then c.toNat - 48
  else if decide ('a' ≤ c) then c.toNat - 87
  else c.toNat - 55

def hexVal (cs : List Char) : Nat :=
  cs.foldl (fun n c => 16 * n + hexDigitVal c) 0

def isOctDigitC (c : Char) : Bool :=
  decide ('0' ≤ c) && decide (c ≤ '7')

def octVal (cs : List Char) : Nat :=
  cs.foldl (fun n c => 8 * n + (c.toNat - 48)) 0

def isBinDigitC (c : Char) : Bool :=
  c == '0' || c == '1'

def binVal (cs : List Char) : Nat :=
  cs.foldl (fun n c => 2 * n + (c.toNat - 48)) 0

/-- Split a character list into its leading digits and the remainder. -/
def splitDigits : List Char → List Char × List Char
  | [] => ([], [])
  | c :: cs =>
    if c.isDigit then
      let p := splitDigits cs
      (c :: p.1, p.2)
    else ([], c :: cs)

/-- An optionally signed non-empty digit string (the exponent part). -/
def parseSignedDigits : List Char → Option Int
  | '+' :: rest =>
    if rest ≠ [] ∧ rest.all Char.isDigit then some ((digitsVal rest : Nat) : Int)
    else none
  | '-' :: rest =>
    if rest ≠ [] ∧ rest.all Char.isDigit then some (-((digitsVal rest : Nat) : Int))
    else none
  | cs =>
    if cs ≠ [] ∧ cs.all Char.isDigit then some ((digitsVal cs : Nat) : Int)
    else none

/-- The optional exponent part, which must consume the whole remainder. -/
def parseExpPart : List Char → Option Int
  | [] => some 0
  | 'e' :: rest => parseSignedDigits rest
  | 'E' :: rest => parseSignedDigits rest
  | _ => none

/-- An unsigned decimal literal `digits [. digits] [exp]` or `. digits [exp]`:
mantissa digits as a natural number, the fraction length, and the exponent. -/
def parseDec (cs : List Char) : Option (Nat × Nat × Int) :=
  let ip := splitDigits cs
  match ip.2 with
  | '.' :: r2 =>
    let fp := splitDigits r2
    if ip.1 = [] ∧ fp.1 = [] then none
    else (parseExpPart fp.2).map (fun e => (digitsVal (ip.1 ++ fp.1), fp.1.length, e))
  | r1 =>
    if ip.1 = [] then none
    else (parseExpPart r1).map (fun e => (digitsVal ip.1, 0, e))

/-- Value of a parsed decimal: shift the mantissa by `exp - fracLen` powers
of ten and truncate toward zero, recording exactness. -/
def decToParse (sign : Bool) (d : Nat) (f : Nat) (e : Int) : NumParse :=
  let sh := e - (f : Int)
  if 0 ≤ sh then
    let m : Nat := d * 10 ^ sh.toNat
    .val (if sign then -(m : Int) else (m : Int)) true
  else
    let m : Nat := 10 ^ ((-sh).toNat)
    .val (if sign then -((d / m : Nat) : Int) else ((d / m : Nat) : Int)) (d % m = 0)

/-- An unsigned numeric literal without the non-decimal prefixes:
`Infinity` or a decimal. -/
def parseUnsigned (cs : List Char) : Option NumParse :=
  if cs = "Infinity".data then some .posInf
  else (parseDec cs).map (fun t => decToParse false t.1 t.2.1 t.2.2)

/-- `Number(s)` for a string, on the integer fragment: trim JavaScript
whitespace; empty means `0`; a sign admits only `Infinity` or a decimal;
`0x`/`0o`/`0b` introduce unsigned non-decimal integers; anything else that
fails the grammar is `NaN`. -/
def jsNumberParse (s : String) : NumParse :=
  let cs := ((s.data.dropWhile jsSpaceChar).reverse.dropWhile jsSpaceChar).reverse
  match cs with
  | [] => .val 0 true
  | '+' :: rest =>
    match parseUnsigned rest with
    | some p => p
    | none => .nan
  | '-' :: rest =>
    if rest = "Infinity".data then .negInf
    else
      match parseDec rest with
      | some t => decToParse true t.1 t.2.1 t.2.2
      | none => .nan
  | '0' :: c2 :: rest =>
    if c2 = 'x' ∨ c2 = 'X' then
      if rest ≠ [] ∧ rest.all isHexDigitC then .val ((hexVal rest : Nat) : Int) true else .nan
    else if c2 = 'o' ∨ c2 = 'O' then
      if rest ≠ [] ∧ rest.all isOctDigitC then .val ((octVal rest : Nat) : Int) true else .nan
    else if c2 = 'b' ∨ c2 = 'B' then
      if rest ≠ [] ∧ rest.all isBinDigitC then .val ((binVal rest : Nat) : Int) true else .nan
    else
      match parseDec ('0' :: c2 :: rest) with
      | some t => decToParse false t.1 t.2.1 t.2.2
      | none => .nan
  | c :: rest =>
    match parseUnsigned (c :: rest) with
    | some p => p
    | none => .nan

/-- Coercion `ToIntegerOrInfinity(Number(s))` as `Array.prototype.splice`
applies it to the start argument: `NaN` is `0`, a finite value truncates
toward zero, and the infinities are represented by the sentinels
`± 2 ^ 53` — every consumer clamps the result into `[0, length]` with
`length < 2 ^ 32`, where a sentinel and an infinity clamp identically (as
does any finite magnitude at or above `2 ^ 53`, which float reading would
round but clamping sends to the same end). -/
def jsNumberInt (s : String) : Int :=
  match jsNumberParse s with
  | .nan => 0
  | .posInf => 2 ^ 53
  | .negInf => -(2 ^ 53)
  | .val t _ => t

/-- First value stored under a key in an insertion-ordered field list. -/
def lookupKey {α : Type} : List (String × α) → String → Option α
  | [], _ => none
  | (k1, v) :: rest, k => if k1 = k then some v else lookupKey rest k

/-- JavaScript assignment `o[k] = x` on an object: rewrite the (unique)
existing occurrence in place, else append, preserving insertion order. -/
def setKey {α : Type} : List (String × α) → String → α → List (String × α)
  | [], k, x => [(k, x)]
  | (k1, v) :: rest, k, x =>
    if k1 = k then (k1, x) :: rest else (k1, v) :: setKey rest k x

/-- JavaScript `delete o[k]`: the key is removed.  (A JavaScript object holds
each key at most once; removing every occurrence agrees with that on all
JS-representable field lists.) -/
def removeKey {α : Type} : List (String × α) → String → List (String × α)
  | [], _ => []
  | (k1, v) :: rest, k =>
    if k1 = k then removeKey rest k else (k1, v) :: removeKey rest k

/-- Operation `xs.splice(i, 1)` (with `i` already coerced to an integer): remove one
element at the clamped position, if any. -/
def spliceOne {α : Type} (xs : List α) (i : Int) : List α :=
  let start : Nat := if i < 0 then (max ((xs.length : Int) + i) 0).toNat else min i.toNat xs.length
  xs.take start ++ xs.drop (start + 1)

/-- JavaScript `arr[i] = x` on a dense array: in-range indices update the
slot, past-the-end indices pad (the source's spread `[...arr]` turns the
resulting holes into `undefined`, which is what the model stores). -/
def listSetPad (xs : List JSValue) (i : Nat) (x : JSValue) : List JSValue :=
  if i < xs.length then xs.set i x
  else xs ++ List.replicate (i - xs.length) .undef ++ [x]

/-! ## Host stringification

`deepCompare`'s terminal check calls `v.toString()` dynamically, and the
array-`length` validation coerces composites through `ToPrimitive`.  On the
modelled universe no own property is callable, so an own `toString` key on
an object makes both the dynamic call and `ToPrimitive` throw a
`TypeError`; without one, an object stringifies to `"[object Object]"` and
an array joins its elements with `","`, where `null`/`undefined` elements
(and holes) contribute the empty string. -/
mutual
def jsToStringE : JSValue → Except JsErr String
  | .undef => .ok "undefined"
  | .nul => .ok "null"
  | .boolean b => .ok (if b then "true" else "false")
  | .num n => .ok (toString n)
  | .str s => .ok s
  | .arr xs => joinElemsE xs
  | .obj fs =>
    match lookupKey fs "toString" with
    | some _ => .error .typeError
    | none => .ok "[object Object]"
def joinElemsE : List JSValue → Except JsErr String
  | [] => .ok ""
  | [x] => elemToStringE x
  | x :: y :: rest =>
    match elemToStringE x with
    | .error e => .error e
    | .ok s1 =>
      match joinElemsE (y :: rest) with
      | .error e => .error e
      | .ok s2 => .ok (s1 ++ "," ++ s2)
def elemToStringE : JSValue → Except JsErr String
  | .undef => .ok ""
  | .nul => .ok ""
  | .boolean b => jsToStringE (.boolean b)
  | .num n => jsToStringE (.num n)
  | .str s => jsToStringE (.str s)
  | .arr xs => jsToStringE (.arr xs)
  | .obj fs => jsToStringE (.obj fs)
end

/-- Optional chaining `v?.toString()`: `null` and `undefined` short-circuit
to `undefined` (`none`); otherwise the dynamic call. -/
def jsToStringOptE : JSValue → Except JsErr (Option String)
  | .undef => .ok none
  | .nul => .ok none
  | .boolean b => (jsToStringE (.boolean b)).map some
  | .num n => (jsToStringE (.num n)).map some
  | .str s => (jsToStringE (.str s)).map some
  | .arr xs => (jsToStringE (.arr xs)).map some
  | .obj fs => (jsToStringE (.obj fs)).map some

/-- JavaScript member read `v[p]`.  `null` and `undefined` receivers throw.
An own key yields its value; strings expose their characters and `length`,
arrays their elements and `length`.  An absent own key under a prototype
property name resolves through the prototype chain to a host built-in and
leaves the modelled fragment; any other absent key reads as `undefined`. -/
def getPropE (v : JSValue) (p : String) : Except JsErr JSValue :=
  match v with
  | .obj fs =>
    match lookupKey fs p with
    | some w => .ok w
    | none =>
      if objectProtoKeys.contains p then .error (.unmodeled "prototype property read")
      else .ok (.undef)
  | .arr xs =>
    match toArrayIndex p with
    | some i => .ok (xs.getD i .undef)
    | none =>
      if p = "length" then .ok (.num xs.length)
      else if arrayProtoMethodKeys.contains p || objectProtoKeys.contains p then
        .error (.unmodeled "prototype property read")
      else .ok (.undef)
  | .str s =>
    match toArrayIndex p with
    | some i =>
      match s.data[i]? with
      | some c => .ok (.str (String.mk [c]))
      | none => .ok (.undef)
    | none =>
      if p = "length" then .ok (.num s.data.length)
      else if stringProtoMethodKeys.contains p || objectProtoKeys.contains p then
        .error (.unmodeled "prototype property read")
      else .ok (.undef)
  | .num n =>
    if numberProtoMethodKeys.contains p || objectProtoKeys.contains p then
      .error (.unmodeled "prototype property read")
    else .ok (.undef)
  | .boolean b =>
    if booleanProtoMethodKeys.contains p || objectProtoKeys.contains p then
      .error (.unmodeled "prototype property read")
    else .ok (.undef)
  | .nul => .error .typeError
  | .undef => .error .typeError

/-- Validation `ToUint32(n) == n` of an array-`length` assignment for a
string value: `Number(s)` must be an exact integer in `[0, 2 ^ 32)`. -/
def jsLengthOfString (s : String) : Except JsErr Nat :=
  match jsNumberParse s with
  | .val t true => if 0 ≤ t ∧ t < 2 ^ 32 then .ok t.toNat else .error .rangeError
  | .val _ false => .error .rangeError
  | .nan => .error .rangeError
  | .posInf => .error .rangeError
  | .negInf => .error .rangeError

/-- The value side of an array-`length` assignment (`ArraySetLength`):
`ToNumber` the value, `RangeError` unless it is an exact integer below
`2 ^ 32`.  A composite goes through `ToPrimitive` (`valueOf` of a modelled
value is never callable and is skipped, so the stringification decides). -/
def jsLengthValue : JSValue → Except JsErr Nat
  | .num n => if 0 ≤ n ∧ n < 2 ^ 32 then .ok n.toNat else .error .rangeError
  | .boolean b => .ok (if b then 1 else 0)
  | .nul => .ok 0
  | .undef => .error .rangeError
  | .str s => jsLengthOfString s
  | .arr xs =>
    match jsToStringE (.arr xs) with
    | .ok s => jsLengthOfString s
    | .error e => .error e
  | .obj fs =>
    match lookupKey fs "toString" with
    | some _ => .error .typeError
    | none => .error .rangeError

/-- Resize a dense array to length `n`: truncate, or grow with holes (stored
as `undefined`, see the header). -/
def resizeTo (xs : List JSValue) (n : Nat) : List JSValue :=
  if n ≤ xs.length then xs.take n
  else xs ++ List.replicate (n - xs.length) (.undef)

/-- JavaScript member write `v[p] = x`.  On a primitive (or `null` /
`undefined`) receiver the strict-mode assignment throws a `TypeError`.  On
an object, an own key (and any key other than `__proto__`) is an ordinary
update or creation; assignment under `__proto__` with no own `__proto__`
key triggers the inherited accessor — a prototype mutation for an object,
array or `null` value (outside the modelled fragment) and a silent no-op
that creates no own key for any other value.  On an array, an index key
updates or pads, `length` resizes after validation, and any other key would
create a non-index own string property (outside the modelled fragment). -/
def setPropE (v : JSValue) (p : String) (x : JSValue) : Except JsErr JSValue :=
  match v with
  | .obj fs =>
    if p = "__proto__" then
      match lookupKey fs "__proto__" with
      | some _ => .ok (.obj (setKey fs p x))
      | none =>
        match x with
        | .obj _ => .error (.unmodeled "prototype mutation")
        | .arr _ => .error (.unmodeled "prototype mutation")
        | .nul => .error (.unmodeled "prototype mutation")
        | .undef => .ok (.obj fs)
        | .boolean _ => .ok (.obj fs)
        | .num _ => .ok (.obj fs)
        | .str _ => .ok (.obj fs)
    else .ok (.obj (setKey fs p x))
  | .arr xs =>
    match toArrayIndex p with
    | some i => .ok (.arr (listSetPad xs i x))
    | none =>
      if p = "length" then (jsLengthValue x).map (fun n => .arr (resizeTo xs n))
      else .error (.unmodeled "non-index array key write")
  | .undef => .error .typeError
  | .nul => .error .typeError
  | .boolean _ => .error .typeError
  | .num _ => .error .typeError
  | .str _ => .error .typeError

/-- The `while (result.length) { findDirectPropInObject(result, 0, true, undefined) }`
loop of the wildcard-delete branch: each iteration splices index `0` off, so
the loop empties the array one head at a time and no element is skipped. -/
def wipeArray : List JSValue → List JSValue
  | [] => []
  | _ :: rest => wipeArray rest

/-- Function `findDirectPropInObject(obj, prop, copyByRef, ...args)`
(lines 22–131 of the source).  `args = some value` models a call with a
replacement argument (`args.length > 0`), `args = none` a read.  In this
value model the shallow clone taken when `copyByRef` is false is the
identity, so `copyByRef` does not influence the result.  Outcomes beyond a
value: deleting on an array splices at `ToIntegerOrInfinity(Number(prop))`;
an assignment routes through `setPropE` (array-`length` validation
included); a read routes through `getPropE`; and the wildcard write over a
mapping that owns a literal `"*"` key re-enters its own wildcard branch on
the same object forever (the source overflows the call stack), which the
model marks as leaving the fragment. -/
def findDirectPropInObject (v : JSValue) (prop : String) (copyByRef : Bool)
    (args : Option JSValue) : Except JsErr JSValue :=
  let type := getObjectType v
  -- cannot work with types other than arrays and objects
  if type ≠ "array" ∧ type ≠ "object" then .ok v
  else
    -- de-referencing ([...obj] / spread) is the identity on values
    let result := v
    -- handle an empty prop name
    if prop = "" then
      match args with
      | some _ => .ok result
      | none => .ok (.undef)
    -- handle a wildcard
    else if prop = "*" then
      match args with
      | some value =>
        match result with
        | .arr xs =>
          if isUndef value then
            -- while (result.length) splice head off
            .ok (.arr (wipeArray xs))
          else
            -- end-to-start traversal setting every element (value is a
            -- literal here: transformers are outside the modelled universe)
            .ok (.arr (xs.map (fun _ => value)))
        | .obj fs =>
          -- Object.keys(result).forEach through a full recursive call per
          -- snapshotted key: an empty key is a no-op of that call (empty
          -- prop name) and survives; a literal "*" key re-enters this very
          -- branch with the same object, forever
          if (fs.map (fun kv => kv.1)).contains "*" then
            .error (.unmodeled "wildcard write over a mapping owning a * key")
          else if isUndef value then
            .ok (.obj (fs.filter (fun kv => kv.1 = "")))
          else
            .ok (.obj (fs.map (fun kv => if kv.1 = "" then kv else (kv.1, value))))
        | .undef => .ok result
        | .nul => .ok result
        | .boolean _ => .ok result
        | .num _ => .ok result
        | .str _ => .ok result
      | none =>
        match result with
        | .obj fs => .ok (.arr (fs.map (fun kv => kv.2)))
        | .arr xs => .ok (.arr xs)  -- reading a wildcard on an array returns it
        | .undef => .ok result
        | .nul => .ok result
        | .boolean _ => .ok result
        | .num _ => .ok result
        | .str _ => .ok result
    -- handle other values
    else
      match args with
      | some value =>
        if isUndef value then
          match result with
          | .arr xs => .ok (.arr (spliceOne xs (jsNumberInt prop)))
          | .obj fs => .ok (.obj (removeKey fs prop))
          | .undef => .ok result
          | .nul => .ok result
          | .boolean _ => .ok result
          | .num _ => .ok result
          | .str _ => .ok result
        else
          setPropE result prop value
      | none => getPropE result prop

/-! ## Path parsing

`findPropInObject` cleans the path string with
`replace(/^\[|\]$/g, '')`, `replace(/\[|\]/g, '.')`, `replace(/\.{2,}/g, '.')`
and `split('.')`.  The model performs the same four steps on the character
list. -/

/-- Strip one leading `[` (first alternative of the anchored regex
`/^\[|\]$/g`). -/
def stripLeadingBracket : List Char → List Char
  | [] => []
  | c :: rest => if c = '[' then rest else c :: rest

/-- Strip one trailing `]` (second alternative of the anchored regex). -/
def stripTrailingBracket (cs : List Char) : List Char :=
  match cs.reverse with
  | [] => cs
  | c :: r => if c = ']' then r.reverse else cs

/-- Strip one leading `[` and one trailing `]` (the two alternatives of the
anchored regex `/^\[|\]$/g`). -/
def stripBrackets (cs : List Char) : List Char :=
  stripTrailingBracket (stripLeadingBracket cs)

/-- Replace every remaining bracket with a dot (`/\[|\]/g` → `'.'`). -/
def bracketsToDots (cs : List Char) : List Char :=
  cs.map (fun c => if c = '[' ∨ c = ']' then '.' else c)

/-- Collapse runs of dots (`/\.{2,}/g` → `'.'`); the flag records whether the
previously emitted character was a dot. -/
def collapseGo : Bool → List Char → List Char
  | _, [] => []
  | prevDot, c :: rest =>
    if c = '.' then
      if prevDot then collapseGo true rest
      else '.' :: collapseGo true rest
    else c :: collapseGo false rest

/-- Operation `split('.')`, accumulating the current segment in reverse. -/
def splitGo (acc : List Char) : List Char → List String
  | [] => [String.mk acc.reverse]
  | c :: rest =>
    if c = '.' then String.mk acc.reverse :: splitGo [] rest
    else splitGo (c :: acc) rest

/-- The path cleaning of `findPropInObject` (lines 150–153): the segment list
of a path expression.  Always non-empty, and an empty segment can only occur
as the first or last entry (dot runs were collapsed first). -/
def parsePath (s : String) : List String :=
  splitGo [] (collapseGo false (bracketsToDots (stripBrackets s.data)))

/-- Monadic map `mapM` over `Except`, written out so that its equations are
plain. -/
def mapME {ε α β : Type} (f : α → Except ε β) : List α → Except ε (List β)
  | [] => .ok []
  | x :: xs =>
    match f x with
    | .error e => .error e
    | .ok y =>
      match mapME f xs with
      | .error e => .error e
      | .ok ys => .ok (y :: ys)

/-- Function `findPropInObject` (lines 144–223), phrased on the parsed
segment list.

The source recursion re-joins the tail segments with `'.'` and re-parses
them on entry to the recursive call.  Re-parsing a joined tail is the
identity: segments contain no bracket and no dot (all brackets were turned
into dots before splitting, and splitting is at dots), and in a parsed list
an empty segment can occur only first or last (dot runs were collapsed), so
joining a tail never creates a dot run, a leading `[`, or a trailing `]`.
Recursion directly on the segment list is therefore extensionally the
source recursion.

A multi-segment non-wildcard step reads `result[prop]` (throwing on a
`null`/`undefined` receiver, leaving the fragment on a prototype-chain
resolution), materialises an empty mapping when that read is `undefined`
(`result[prop] = ...` throws the strict-mode `TypeError` on a primitive
receiver here), recurses, and stores the recursion result back with the
same member write.  The source evaluates the recursive call before the
failing assignment; both are value-pure here, so the error order of the
model is the source's. -/
def findPropInObjectSegs (v : JSValue) (path : List String) (copyByRef : Bool)
    (args : Option JSValue) : Except JsErr JSValue :=
  match path with
  | [] => .ok v  -- unreachable: `split` never returns an empty list
  | [p] => findDirectPropInObject v p copyByRef args
  | p :: q :: rest =>
    let path' := q :: rest
    -- de-referencing is the identity in the value model
    match args with
    | some value =>
      if p = "*" then
        match v with
        | .arr xs =>
          (mapME (fun item => findPropInObjectSegs item path' copyByRef (some value)) xs).map .arr
        | .obj fs =>
          (mapME (fun kv =>
            (findPropInObjectSegs kv.2 path' copyByRef (some value)).map
              (fun w => (kv.1, w))) fs).map .obj
        | .undef => .ok .undef
        | .nul => .ok .nul
        | .boolean b => .ok (.boolean b)
        | .num n => .ok (.num n)
        | .str s => .ok (.str s)
      else
        match getPropE v p with
        | .error e => .error e
        | .ok c =>
          if isUndef c then
            match setPropE v p (.obj []) with
            | .error e => .error e
            | .ok v1 =>
              match findPropInObjectSegs (.obj []) path' copyByRef (some value) with
              | .error e => .error e
              | .ok sub => setPropE v1 p sub
          else
            match findPropInObjectSegs c path' copyByRef (some value) with
            | .error e => .error e
            | .ok sub => setPropE v p sub
    | none =>
      if p = "*" then
        match v with
        | .arr xs =>
          (mapME (fun item => findPropInObjectSegs item path' copyByRef none) xs).map .arr
        | .obj fs =>
          (mapME (fun kv => findPropInObjectSegs kv.2 path' copyByRef none) fs).map .arr
        | .undef => .error .typeError
        | .nul => .error .typeError
        | .boolean b =>
          match getPropE (.boolean b) p with
          | .error e => .error e
          | .ok c => findPropInObjectSegs (if truthy c then c else .obj []) path' copyByRef none
        | .num n =>
          match getPropE (.num n) p with
          | .error e => .error e
          | .ok c => findPropInObjectSegs (if truthy c then c else .obj []) path' copyByRef none
        | .str s =>
          match getPropE (.str s) p with
          | .error e => .error e
          | .ok c => findPropInObjectSegs (if truthy c then c else .obj []) path' copyByRef none
      else
        match getPropE v p with
        | .error e => .error e
        | .ok c => findPropInObjectSegs (if truthy c then c else .obj []) path' copyByRef none
termination_by structural path

/-- Function `findPropInObject(obj, pathStr, copyByRef, ...args)`. -/
def findPropInObject (v : JSValue) (pathStr : String) (copyByRef : Bool)
    (args : Option JSValue) : Except JsErr JSValue :=
  findPropInObjectSegs v (parsePath pathStr) copyByRef args

example : parsePath "a.b" = ["a", "b"] := rfl
example : parsePath "" = [""] := rfl
example : parsePath "data.entries[0][3].title" = ["data", "entries", "0", "3", "title"] := rfl
example : parsePath "[a]b" = ["a", "b"] := rfl
example : parsePath "a..b." = ["a", "b", ""] := rfl

/-! ## Derived operations (`queryObject`, `mergeObjects`, `deepCopy`,
`deepCompare`) -/

/-- `Object.keys` of a value (own enumerable string keys); `null` and
`undefined` throw. -/
def jsKeys : JSValue → Except JsErr (List String)
  | .obj fs => .ok (fs.map (fun kv => kv.1))
  | .arr xs => .ok ((List.range xs.length).map (fun i => toString i))
  | .str s => .ok ((List.range s.data.length).map (fun i => toString i))
  | .nul => .error .typeError
  | .undef => .error .typeError
  | .boolean _ => .ok []
  | .num _ => .ok []

/-- Object spread of a value: own enumerable entries of `v` as an object.
Arrays and strings contribute their indexed entries, primitives nothing. -/
def spreadToObj : JSValue → JSValue
  | .obj fs => .obj fs
  | .arr xs => .obj (xs.enum.map (fun p => (toString p.1, p.2)))
  | .str s => .obj (s.data.enum.map (fun p => (toString p.1, JSValue.str (String.mk [p.2]))))
  | _ => .obj []

/-- Function `mergeObjects(objA, objB)` (lines 254–257): fold a
non-destructive single-key write of each of `objB`'s entries over the
spread of `objA`.  `Object.keys` of `null`/`undefined` throws; the member
read `objB[next]` is an own read for every enumerated key. -/
def mergeObjects (objA objB : JSValue) : Except JsErr JSValue := do
  let ks ← jsKeys objB
  ks.foldlM (fun prev k =>
    (getPropE objB k).bind (fun bv => findPropInObject prev k false (some bv)))
    (spreadToObj objA)

/-- Function `queryObject(query, obj)` (lines 231–246).  A string query is a
path read; an object query maps each entry's value — `null`/`undefined`
entries throw when `findPropInObject` stringifies them, others stringify by
the host conversion — to the corresponding path read; anything else returns
the object unchanged. -/
def queryObject (query : JSValue) (v : JSValue) : Except JsErr JSValue :=
  match query with
  | .str s => findPropInObject v s false none
  | .obj fs =>
    (mapME (fun kv =>
      match kv.2 with
      | .nul => .error .typeError
      | .undef => .error .typeError
      | q => (jsToStringE q).bind (fun qs =>
          (findPropInObject v qs false none).map (fun r => (kv.1, r)))) fs).map .obj
  | .arr xs => .ok v
  | .undef => .ok v
  | .nul => .ok v
  | .boolean _ => .ok v
  | .num _ => .ok v

mutual
/-- Function `deepCopy` (lines 264–282): recursively clone composites, copy leaves. -/
def deepCopy : JSValue → JSValue
  | .obj fs => .obj (deepCopyFields fs)
  | .arr xs => .arr (deepCopyElems xs)
  | v => v
def deepCopyFields : List (String × JSValue) → List (String × JSValue)
  | [] => []
  | (k, v) :: rest =>
    (k, if isComposite v then deepCopy v else v) :: deepCopyFields rest
def deepCopyElems : List JSValue → List JSValue
  | [] => []
  | v :: rest =>
    (if isComposite v then deepCopy v else v) :: deepCopyElems rest
end

/-! Function `deepCompare` (lines 291–311).  Kinds must match; for a
composite first argument every key of the FIRST argument must recursively
compare equal in the second (`Object.keys(objA)` only); finally the two
canonical string representations (dynamic `toString()`, under optional
chaining) must coincide.  Reading a key of the second argument that it does
not own: an index or ordinary key reads as `undefined`; a prototype
property name resolves to a host built-in whose kind (`function`, or
`object` for `__proto__`) matches no modelled kind, so the comparison at
that key is false — except against an object first value under
`__proto__`, where the source would recurse into `Object.prototype` itself
(outside the fragment).  For a dense array the iterated keys are the
canonical index strings, modelled by walking the element lists in
lockstep. -/
mutual
def deepCompareE (a b : JSValue) : Except JsErr Bool :=
  if getObjectType a ≠ getObjectType b then .ok false
  else
    match
      (match a with
       | .obj fs => deepCompareFieldsE fs b
       | .arr xs =>
         (match b with
          | .arr ys => deepCompareElemsE xs ys
          | _ => .ok true)  -- unreachable: kinds already match
       | _ => .ok true) with
    | .error e => .error e
    | .ok false => .ok false
    | .ok true =>
      match jsToStringOptE a with
      | .error e => .error e
      | .ok sa =>
        match jsToStringOptE b with
        | .error e => .error e
        | .ok sb => .ok (sa == sb)
def deepCompareFieldsE : List (String × JSValue) → JSValue → Except JsErr Bool
  | [], _ => .ok true
  | (k, va) :: rest, b =>
    match
      (match b with
       | .obj fsb =>
         match lookupKey fsb k with
         | some w => deepCompareE va w
         | none =>
           if k = "__proto__" then
             match va with
             | .obj _ => .error (.unmodeled "comparison against a prototype object")
             | _ => .ok false
           else if objectProtoKeys.contains k then .ok false
           else deepCompareE va .undef
       | _ => deepCompareE va .undef) with
    | .error e => .error e
    | .ok false => .ok false
    | .ok true => deepCompareFieldsE rest b
def deepCompareElemsE : List JSValue → List JSValue → Except JsErr Bool
  | [], _ => .ok true
  | x :: rest, ys =>
    match deepCompareE x (ys.headD .undef) with
    | .error e => .error e
    | .ok false => .ok false
    | .ok true => deepCompareElemsE rest ys.tail
end

/-! Well-formedness of a modelled value as a JavaScript value: every nested
object holds each key at most once (a JavaScript object cannot hold a
duplicate key; association lists with duplicates are artefacts of the model
and correspond to no runtime value). -/
mutual
def wfJS : JSValue → Bool
  | .obj fs => ((fs.map (fun kv => kv.1)).Nodup : Bool) && wfFields fs
  | .arr xs => wfElems xs
  | _ => true
def wfFields : List (String × JSValue) → Bool
  | [] => true
  | (_, v) :: rest => wfJS v && wfFields rest
def wfElems : List JSValue → Bool
  | [] => true
  | v :: rest => wfJS v && wfElems rest
end

/-! No value in a visited position shadows `toString` with an own key:
under this condition every dynamic `toString()` that `deepCompare` performs
succeeds. -/
mutual
def noShadow : JSValue → Bool
  | .obj fs => (lookupKey fs "toString").isNone && noShadowFields fs
  | .arr xs => noShadowElems xs
  | _ => true
def noShadowFields : List (String × JSValue) → Bool
  | [] => true
  | (_, v) :: rest => noShadow v && noShadowFields rest
def noShadowElems : List JSValue → Bool
  | [] => true
  | v :: rest => noShadow v && noShadowElems rest
end

/-- The sub-root a multi-segment write descends into: `result[prop]` after
`if (typeof result[prop] === 'undefined') result[prop] = ...` replaced the
undefined read with an empty mapping (lines 199–203); a reading failure
defaults to an empty mapping (such inputs are outside every use below). -/
def writeChild (v : JSValue) (p : String) : JSValue :=
  match getPropE v p with
  | .ok c => if isUndef c then .obj [] else c
  | .error _ => .obj []

/-- The sub-root a multi-segment read descends into: `result[prop] || ...`
with an empty mapping replacing a falsy read (line 222); a reading failure
defaults likewise (such inputs are outside every use below). -/
def readChildT (v : JSValue) (p : String) : JSValue :=
  match getPropE v p with
  | .ok c => if truthy c then c else .obj []
  | .error _ => .obj []

/-- A path segment that addresses an ordinary own mapping entry: non-empty,
not the wildcard, not a prototype property name. -/
def goodObjSeg (s : String) : Bool :=
  !(s == "" || s == "*") && !(objectProtoKeys.contains s)

/-- The composite-chain predicate for the round-trip laws.  `chainW u v path`
holds when descending `path` through `v` as a write would (entering present
sub-values, materialising an empty mapping where the member reads as
`undefined`) meets a mapping addressed by an ordinary own-key segment or a
sequence addressed by a canonical index segment at every level; `u` tells
whether the written value is the undefined-marker, which the final level
admits only on a mapping (deleting a sequence index shifts later elements
onto the read path). -/
def chainW (u : Bool) : JSValue → List String → Bool
  | .obj _, [s] => goodObjSeg s
  | .arr _, [s] => !u && (toArrayIndex s).isSome
  | .obj fs, s :: q :: rest =>
    goodObjSeg s && chainW u (writeChild (.obj fs) s) (q :: rest)
  | .arr xs, s :: q :: rest =>
    (toArrayIndex s).isSome && chainW u (writeChild (.arr xs) s) (q :: rest)
  | _, _ => false
termination_by structural _ path => path

/-- Safety predicate for `findPropInObjectSegs`, sufficient for completing
without an exception (and within the modelled fragment).  A single segment
is safe unless it is a wildcard write over a mapping owning a `"*"` key, an
assignment through the inherited `__proto__` setter, or an array write
under a non-index key; with two or more segments, every member the step
reads must be an own key, an index, a length, or an ordinary absent key,
a write must meet a composite (or a wildcard segment, which skips
non-composites), a read must not meet `null`/`undefined`, and the children
actually descended into must be safe for the remaining path. -/
def safeSegs (v : JSValue) (path : List String) (isWrite : Bool) : Bool :=
  match path with
  | [] => true
  | [p] =>
    match v with
    | .obj fs =>
      if isWrite then
        !(p == "*" && (fs.map (fun kv => kv.1)).contains "*") &&
        !(p == "__proto__" && (lookupKey fs "__proto__").isNone)
      else
        p == "" || p == "*" || (lookupKey fs p).isSome ||
          !(objectProtoKeys.contains p)
    | .arr xs =>
      if isWrite then
        p == "" || p == "*" || (toArrayIndex p).isSome
      else
        p == "" || p == "*" || (toArrayIndex p).isSome || p == "length" ||
          !(arrayProtoMethodKeys.contains p || objectProtoKeys.contains p)
    | _ => true
  | p :: q :: rest =>
    let path' := q :: rest
    if isWrite then
      match v with
      | .arr xs =>
        if p = "*" then xs.all (fun x => safeSegs x path' true)
        else (toArrayIndex p).isSome && safeSegs (writeChild (.arr xs) p) path' true
      | .obj fs =>
        if p = "*" then
          !((fs.map (fun kv => kv.1)).contains "*") &&
          fs.all (fun kv => safeSegs kv.2 path' true)
        else
          ((lookupKey fs p).isSome || !(objectProtoKeys.contains p)) &&
          safeSegs (writeChild (.obj fs) p) path' true
      | .undef => decide (p = "*")
      | .nul => decide (p = "*")
      | .boolean _ => decide (p = "*")
      | .num _ => decide (p = "*")
      | .str _ => decide (p = "*")
    else
      match v with
      | .undef => false
      | .nul => false
      | .arr xs =>
        if p = "*" then xs.all (fun x => safeSegs x path' false)
        else
          ((toArrayIndex p).isSome || p == "length" ||
            !(arrayProtoMethodKeys.contains p || objectProtoKeys.contains p)) &&
          safeSegs (readChildT (.arr xs) p) path' false
      | .obj fs =>
        if p = "*" then fs.all (fun kv => safeSegs kv.2 path' false)
        else
          ((lookupKey fs p).isSome || !(objectProtoKeys.contains p)) &&
          safeSegs (readChildT (.obj fs) p) path' false
      | .boolean b =>
        !(booleanProtoMethodKeys.contains p || objectProtoKeys.contains p) &&
        safeSegs (readChildT (.boolean b) p) path' false
      | .num n =>
        !(numberProtoMethodKeys.contains p || objectProtoKeys.contains p) &&
        safeSegs (readChildT (.num n) p) path' false
      | .str s =>
        ((toArrayIndex p).isSome || p == "length" ||
          !(stringProtoMethodKeys.contains p || objectProtoKeys.contains p)) &&
        safeSegs (readChildT (.str s) p) path' false
termination_by structural path

/-- A fragment key that the path parser keeps intact and that addresses an
ordinary own mapping entry: non-empty, not the wildcard, not the inherited
`__proto__` accessor, and free of dots and brackets. -/
def simpleKey (k : String) : Bool :=
  decide (k ≠ "" ∧ k ≠ "*" ∧ k ≠ "__proto__" ∧
    ∀ c ∈ k.data, c ≠ '.' ∧ c ≠ '[' ∧ c ≠ ']')

/-! ## Basic lemmas about the field-list operations -/

theorem isUndef_iff (v : JSValue) : isUndef v = true ↔ v = .undef := by
  cases v <;> simp [isUndef]

theorem truthy_obj (fs : List (String × JSValue)) : truthy (.obj fs) = true := rfl

theorem lookupKey_setKey_self {α : Type} (fs : List (String × α)) (k : String) (x : α) :
    lookupKey (setKey fs k x) k = some x := by
  induction fs with
  | nil => simp [setKey, lookupKey]
  | cons kv rest ih =>
    obtain ⟨k1, v⟩ := kv
    by_cases h : k1 = k
    · simp [setKey, lookupKey, h]
    · simp [setKey, lookupKey, h, ih]

theorem lookupKey_setKey_ne {α : Type} (fs : List (String × α)) (k k' : String) (x : α)
    (h : k' ≠ k) : lookupKey (setKey fs k x) k' = lookupKey fs k' := by
  have hk : ¬k = k' := fun hh => h hh.symm
  induction fs with
  | nil => simp [setKey, lookupKey, hk]
  | cons kv rest ih =>
    obtain ⟨k1, v⟩ := kv
    by_cases h1 : k1 = k
    · subst h1
      simp [setKey, lookupKey, hk]
    · simp only [setKey, if_neg h1]
      by_cases h2 : k1 = k'
      · simp [lookupKey, h2]
      · simp [lookupKey, h2, ih]

theorem lookupKey_removeKey_self {α : Type} (fs : List (String × α)) (k : String) :
    lookupKey (removeKey fs k) k = none := by
  induction fs with
  | nil => simp [removeKey, lookupKey]
  | cons kv rest ih =>
    obtain ⟨k1, v⟩ := kv
    by_cases h : k1 = k
    · simpa [removeKey, h] using ih
    · simpa [removeKey, lookupKey, h] using ih

theorem lookupKey_removeKey_ne {α : Type} (fs : List (String × α)) (k k' : String)
    (h : k' ≠ k) : lookupKey (removeKey fs k) k' = lookupKey fs k' := by
  have hk : ¬k = k' := fun hh => h hh.symm
  induction fs with
  | nil => simp [removeKey, lookupKey]
  | cons kv rest ih =>
    obtain ⟨k1, v⟩ := kv
    by_cases h1 : k1 = k
    · subst h1
      simp [removeKey, lookupKey, hk, ih]
    · by_cases h2 : k1 = k'
      · subst h2
        simp [removeKey, lookupKey, h1]
      · simp [removeKey, lookupKey, h1, h2, ih]

theorem wfElems_mem (xs : List JSValue) (h : wfElems xs = true) :
    ∀ x ∈ xs, wfJS x = true := by
  induction xs with
  | nil => simp
  | cons x rest ih =>
    rw [wfElems, Bool.and_eq_true] at h
    intro y hy
    rcases List.mem_cons.mp hy with heq | hm
    · exact heq ▸ h.1
    · exact ih h.2 y hm

theorem wfFields_mem (fs : List (String × JSValue)) (h : wfFields fs = true) :
    ∀ kv ∈ fs, wfJS kv.2 = true := by
  induction fs with
  | nil => simp
  | cons kv rest ih =>
    obtain ⟨k, v⟩ := kv
    rw [wfFields, Bool.and_eq_true] at h
    intro y hy
    rcases List.mem_cons.mp hy with heq | hm
    · exact heq ▸ h.1
    · exact ih h.2 y hm

/-- In the value model `deepCopy` is the identity: a dense array or an
insertion-ordered field list is rebuilt entry by entry. -/
theorem deepCopy_trio : ∀ (n : Nat),
    (∀ v : JSValue, sizeOf v ≤ n → deepCopy v = v) ∧
    (∀ xs : List JSValue, sizeOf xs ≤ n → deepCopyElems xs = xs) ∧
    (∀ fs : List (String × JSValue), sizeOf fs ≤ n → deepCopyFields fs = fs) := by
  intro n
  induction n with
  | zero =>
    refine ⟨fun v h => ?_, fun xs h => ?_, fun fs h => ?_⟩
    · cases v <;> simp at h
    · cases xs <;> simp at h
    · cases fs <;> simp at h
  | succ n ih =>
    obtain ⟨ihv, ihe, ihf⟩ := ih
    refine ⟨fun v h => ?_, fun xs h => ?_, fun fs h => ?_⟩
    · cases v with
      | arr xs =>
        have hx : sizeOf xs ≤ n := by simp at h; omega
        simp [deepCopy, ihe xs hx]
      | obj fs =>
        have hf : sizeOf fs ≤ n := by simp at h; omega
        simp [deepCopy, ihf fs hf]
      | undef => simp [deepCopy]
      | nul => simp [deepCopy]
      | boolean b => simp [deepCopy]
      | num m => simp [deepCopy]
      | str s => simp [deepCopy]
    · cases xs with
      | nil => simp [deepCopyElems]
      | cons x rest =>
        have h1 : sizeOf x ≤ n := by simp at h; omega
        have h2 : sizeOf rest ≤ n := by simp at h; omega
        rw [deepCopyElems, ihe rest h2]
        by_cases hc : isComposite x = true
        · rw [if_pos hc, ihv x h1]
        · rw [if_neg hc]
    · cases fs with
      | nil => simp [deepCopyFields]
      | cons kv rest =>
        obtain ⟨k, v⟩ := kv
        have h1 : sizeOf v ≤ n := by simp at h; omega
        have h2 : sizeOf rest ≤ n := by simp at h; omega
        rw [deepCopyFields, ihf rest h2]
        by_cases hc : isComposite v = true
        · rw [if_pos hc, ihv v h1]
        · rw [if_neg hc]

theorem deepCopy_id (v : JSValue) : deepCopy v = v :=
  (deepCopy_trio (sizeOf v)).1 v (le_refl _)

/-! ## Reduction lemmas for the engine and the member operations -/

theorem truthy_of_isComposite (v : JSValue) (h : isComposite v = true) :
    truthy v = true := by
  cases v <;> simp_all [isComposite, truthy]

theorem toArrayIndex_ne (s : String) (i : Nat) (h : toArrayIndex s = some i) :
    s ≠ "" ∧ s ≠ "*" := by
  constructor
  · intro he
    subst he
    rw [(by decide : toArrayIndex "" = none)] at h
    exact Option.noConfusion h
  · intro he
    subst he
    rw [(by decide : toArrayIndex "*" = none)] at h
    exact Option.noConfusion h

theorem ne_proto_of_not_mem (s : String)
    (h : s ∉ objectProtoKeys) : s ≠ "__proto__" := by
  intro he
  exact h (by rw [he]; decide)

theorem goodObjSeg_spec (s : String) (h : goodObjSeg s = true) :
    s ≠ "" ∧ s ≠ "*" ∧ s ∉ objectProtoKeys := by
  rw [goodObjSeg, Bool.and_eq_true, Bool.not_eq_eq_eq_not, Bool.not_true,
    Bool.or_eq_false_iff, Bool.not_eq_eq_eq_not, Bool.not_true] at h
  obtain ⟨⟨h1, h2⟩, h3⟩ := h
  rw [beq_eq_false_iff_ne] at h1 h2
  refine ⟨h1, h2, ?_⟩
  simpa using h3

theorem setKey_setKey {α : Type} (fs : List (String × α)) (k : String) (x y : α) :
    setKey (setKey fs k x) k y = setKey fs k y := by
  induction fs with
  | nil => simp [setKey]
  | cons kv rest ih =>
    obtain ⟨k1, v⟩ := kv
    by_cases h : k1 = k
    · simp [setKey, h]
    · simp [setKey, h, ih]

theorem set_append_len {α : Type} : ∀ (l1 : List α) (a b : α),
    (l1 ++ [a]).set l1.length b = l1 ++ [b] := by
  intro l1
  induction l1 with
  | nil => intro a b; rfl
  | cons c rest ih => intro a b; simp [List.set, ih]

theorem listSetPad_get (xs : List JSValue) (i : Nat) (x : JSValue) :
    (listSetPad xs i x)[i]? = some x := by
  unfold listSetPad
  by_cases h : i < xs.length
  · rw [if_pos h]
    induction xs generalizing i with
    | nil => simp at h
    | cons y ys ih =>
      cases i with
      | zero => simp
      | succ j => simpa using ih j (by simpa using h)
  · rw [if_neg h]
    have h1 : (xs ++ List.replicate (i - xs.length) JSValue.undef).length ≤ i := by
      simp
      omega
    rw [List.getElem?_append_right h1]
    have h2 : i - (xs ++ List.replicate (i - xs.length) JSValue.undef).length = 0 := by
      simp
      omega
    rw [h2]
    rfl

theorem listSetPad_getD (xs : List JSValue) (i : Nat) (x : JSValue) :
    (listSetPad xs i x).getD i .undef = x := by
  rw [List.getD_eq_getElem?_getD, listSetPad_get]
  rfl

theorem listSetPad_listSetPad (xs : List JSValue) (i : Nat) (x y : JSValue) :
    listSetPad (listSetPad xs i x) i y = listSetPad xs i y := by
  by_cases h : i < xs.length
  · have hinner : listSetPad xs i x = xs.set i x := by
      unfold listSetPad
      rw [if_pos h]
    have houter : listSetPad xs i y = xs.set i y := by
      unfold listSetPad
      rw [if_pos h]
    have h2 : i < (xs.set i x).length := by simpa using h
    have hmid : listSetPad (xs.set i x) i y = (xs.set i x).set i y := by
      unfold listSetPad
      rw [if_pos h2]
    rw [hinner, hmid, List.set_set, houter]
  · have hinner : listSetPad xs i x =
        xs ++ List.replicate (i - xs.length) JSValue.undef ++ [x] := by
      unfold listSetPad
      rw [if_neg h]
    have houter : listSetPad xs i y =
        xs ++ List.replicate (i - xs.length) JSValue.undef ++ [y] := by
      unfold listSetPad
      rw [if_neg h]
    have hlen : (xs ++ List.replicate (i - xs.length) JSValue.undef).length = i := by
      simp
      omega
    have hlt : i < (xs ++ List.replicate (i - xs.length) JSValue.undef ++ [x]).length := by
      simp
      omega
    have hmid : listSetPad (xs ++ List.replicate (i - xs.length) JSValue.undef ++ [x]) i y
        = (xs ++ List.replicate (i - xs.length) JSValue.undef ++ [x]).set i y := by
      unfold listSetPad
      rw [if_pos hlt]
    have hstep := set_append_len (xs ++ List.replicate (i - xs.length) JSValue.undef) x y
    rw [hlen] at hstep
    rw [hinner, hmid, hstep, houter]

theorem getPropE_obj_some (fs : List (String × JSValue)) (p : String) (w : JSValue)
    (h : lookupKey fs p = some w) : getPropE (.obj fs) p = .ok w := by
  simp [getPropE, h]

theorem getPropE_obj_none (fs : List (String × JSValue)) (p : String)
    (h1 : lookupKey fs p = none) (h2 : p ∉ objectProtoKeys) :
    getPropE (.obj fs) p = .ok .undef := by
  simp [getPropE, h1, h2]

theorem getPropE_arr_idx (xs : List JSValue) (p : String) (i : Nat)
    (h : toArrayIndex p = some i) : getPropE (.arr xs) p = .ok (xs.getD i .undef) := by
  simp [getPropE, h]

theorem setPropE_obj_ne_proto (fs : List (String × JSValue)) (p : String) (x : JSValue)
    (h : p ≠ "__proto__") : setPropE (.obj fs) p x = .ok (.obj (setKey fs p x)) := by
  simp [setPropE, h]

theorem setPropE_obj_own_proto (fs : List (String × JSValue)) (x : JSValue) (w : JSValue)
    (h : lookupKey fs "__proto__" = some w) :
    setPropE (.obj fs) "__proto__" x = .ok (.obj (setKey fs "__proto__" x)) := by
  simp [setPropE, h]

theorem setPropE_arr_idx (xs : List JSValue) (p : String) (i : Nat) (x : JSValue)
    (h : toArrayIndex p = some i) : setPropE (.arr xs) p x = .ok (.arr (listSetPad xs i x)) := by
  simp [setPropE, h]

/-- The multi-segment non-wildcard write step, once the member read is
known. -/
theorem writeStep_eq (v : JSValue) (p q : String) (rest : List String)
    (c0 : Bool) (x : JSValue) (hp : p ≠ "*") (cv : JSValue)
    (hg : getPropE v p = .ok cv) :
    findPropInObjectSegs v (p :: q :: rest) c0 (some x) =
      (if isUndef cv then
        match setPropE v p (.obj []) with
        | .error e => .error e
        | .ok v1 =>
          match findPropInObjectSegs (.obj []) (q :: rest) c0 (some x) with
          | .error e => .error e
          | .ok sub => setPropE v1 p sub
      else
        match findPropInObjectSegs cv (q :: rest) c0 (some x) with
        | .error e => .error e
        | .ok sub => setPropE v p sub) := by
  simp [findPropInObjectSegs, hp, hg]

/-- The multi-segment non-wildcard read step, once the member read is
known. -/
theorem readStep_eq (v : JSValue) (p q : String) (rest : List String)
    (c0 : Bool) (hp : p ≠ "*") (cv : JSValue)
    (hg : getPropE v p = .ok cv) :
    findPropInObjectSegs v (p :: q :: rest) c0 none =
      findPropInObjectSegs (if truthy cv then cv else .obj []) (q :: rest) c0 none := by
  simp [findPropInObjectSegs, hp, hg]

/-! ## The composite-chain round-trip -/

/-- Main round-trip lemma: on a composite chain, a write of `x` (with the
deleting write `x = undefined` admitted on a mapping final level) followed
by a read of the same segment list yields `x`, and the written root is a
composite. -/
theorem chainRoundTripSegs : ∀ (path : List String) (v x : JSValue),
    chainW (isUndef x) v path = true →
    ∃ w, findPropInObjectSegs v path false (some x) = .ok w ∧
      isComposite w = true ∧
      findPropInObjectSegs w path false none = .ok x := by
  intro path
  induction path with
  | nil => intro v x h; cases v <;> simp [chainW] at h
  | cons s tail ih =>
    intro v x h
    cases tail with
    | nil =>
      cases v with
      | obj fs =>
        simp only [chainW] at h
        obtain ⟨hs1, hs2, hs3⟩ := goodObjSeg_spec s h
        have hsp : s ≠ "__proto__" := ne_proto_of_not_mem s hs3
        cases hux : isUndef x with
        | false =>
          refine ⟨.obj (setKey fs s x), ?_, rfl, ?_⟩
          · simp [findPropInObjectSegs, findDirectPropInObject, getObjectType,
              hs1, hs2, hux, setPropE, hsp]
          · simp [findPropInObjectSegs, findDirectPropInObject, getObjectType,
              hs1, hs2, getPropE, lookupKey_setKey_self]
        | true =>
          rw [isUndef_iff] at hux
          subst hux
          refine ⟨.obj (removeKey fs s), ?_, rfl, ?_⟩
          · simp [findPropInObjectSegs, findDirectPropInObject, getObjectType,
              hs1, hs2, isUndef]
          · simp [findPropInObjectSegs, findDirectPropInObject, getObjectType,
              hs1, hs2, getPropE, lookupKey_removeKey_self, hs3, isUndef]
      | arr xs =>
        simp only [chainW, Bool.and_eq_true] at h
        obtain ⟨hu, hidx⟩ := h
        have hux : isUndef x = false := by
          revert hu
          cases isUndef x <;> simp
        obtain ⟨i, hi⟩ := Option.isSome_iff_exists.mp hidx
        obtain ⟨hs1, hs2⟩ := toArrayIndex_ne s i hi
        refine ⟨.arr (listSetPad xs i x), ?_, rfl, ?_⟩
        · simp [findPropInObjectSegs, findDirectPropInObject, getObjectType,
            hs1, hs2, hux, setPropE, hi]
        · simp [findPropInObjectSegs, findDirectPropInObject, getObjectType,
            hs1, hs2, getPropE, hi, listSetPad_get]
      | undef => simp [chainW] at h
      | nul => simp [chainW] at h
      | boolean b => simp [chainW] at h
      | num n => simp [chainW] at h
      | str s2 => simp [chainW] at h
    | cons q rest =>
      cases v with
      | obj fs =>
        simp only [chainW, Bool.and_eq_true] at h
        obtain ⟨hgood, hchain⟩ := h
        obtain ⟨hs1, hs2, hs3⟩ := goodObjSeg_spec s hgood
        have hsp : s ≠ "__proto__" := ne_proto_of_not_mem s hs3
        obtain ⟨w, hset, hcw, hget⟩ := ih (writeChild (.obj fs) s) x hchain
        refine ⟨.obj (setKey fs s w), ?_, rfl, ?_⟩
        · cases hlk : lookupKey fs s with
          | none =>
            have hgp := getPropE_obj_none fs s hlk hs3
            have hwc : writeChild (.obj fs) s = .obj [] := by
              simp [writeChild, hgp, isUndef]
            rw [hwc] at hset
            rw [writeStep_eq (.obj fs) s q rest false x hs2 _ hgp]
            simp [isUndef, setPropE_obj_ne_proto _ _ _ hsp, hset, setKey_setKey]
          | some c0 =>
            have hgp := getPropE_obj_some fs s c0 hlk
            cases hc0 : isUndef c0 with
            | true =>
              rw [isUndef_iff] at hc0
              subst hc0
              have hwc : writeChild (.obj fs) s = .obj [] := by
                simp [writeChild, hgp, isUndef]
              rw [hwc] at hset
              rw [writeStep_eq (.obj fs) s q rest false x hs2 _ hgp]
              simp [isUndef, setPropE_obj_ne_proto _ _ _ hsp, hset, setKey_setKey]
            | false =>
              have hwc : writeChild (.obj fs) s = c0 := by
                simp [writeChild, hgp, hc0]
              rw [hwc] at hset
              rw [writeStep_eq (.obj fs) s q rest false x hs2 _ hgp]
              simp [hc0, setPropE_obj_ne_proto _ _ _ hsp, hset]
        · have hgp := getPropE_obj_some (setKey fs s w) s w (lookupKey_setKey_self fs s w)
          rw [readStep_eq (.obj (setKey fs s w)) s q rest false hs2 _ hgp]
          simp [truthy_of_isComposite w hcw, hget]
      | arr xs =>
        simp only [chainW, Bool.and_eq_true] at h
        obtain ⟨hidx, hchain⟩ := h
        obtain ⟨i, hi⟩ := Option.isSome_iff_exists.mp hidx
        obtain ⟨hs1, hs2⟩ := toArrayIndex_ne s i hi
        obtain ⟨w, hset, hcw, hget⟩ := ih (writeChild (.arr xs) s) x hchain
        have hgp := getPropE_arr_idx xs s i hi
        generalize hcv : xs.getD i JSValue.undef = cv at hgp
        refine ⟨.arr (listSetPad xs i w), ?_, rfl, ?_⟩
        · cases hc0 : isUndef cv with
          | true =>
            have hwc : writeChild (.arr xs) s = .obj [] := by
              simp [writeChild, hgp, hc0]
            rw [hwc] at hset
            rw [writeStep_eq (.arr xs) s q rest false x hs2 _ hgp]
            simp [hc0, setPropE_arr_idx _ _ _ _ hi, hset, listSetPad_listSetPad]
          | false =>
            have hwc : writeChild (.arr xs) s = cv := by
              simp [writeChild, hgp, hc0]
            rw [hwc] at hset
            rw [writeStep_eq (.arr xs) s q rest false x hs2 _ hgp]
            simp [hc0, setPropE_arr_idx _ _ _ _ hi, hset]
        · have hgp2 := getPropE_arr_idx (listSetPad xs i w) s i hi
          rw [listSetPad_getD] at hgp2
          rw [readStep_eq (.arr (listSetPad xs i w)) s q rest false hs2 _ hgp2]
          simp [truthy_of_isComposite w hcw, hget]
      | undef => simp [chainW] at h
      | nul => simp [chainW] at h
      | boolean b => simp [chainW] at h
      | num n => simp [chainW] at h
      | str s2 => simp [chainW] at h

/-! ## Claims C1 and C2: round-trip and removal laws -/

/-- Counterexample to claim C1 as stated.  For the non-composite root `0`
and the wildcard-free path `"a"`, the write is a no-op returning `0`
(`findDirectPropInObject` returns any non-array non-object receiver
unchanged) and the read on a number returns the number itself, so
`get(set(0, "a", 1), "a")` is `0`, not `1`: the round-trip law quantified
over every root value fails. -/
theorem C1_counterexample :
    (findPropInObject (.num 0) "a" false (some (.num 1))).bind
      (fun r => findPropInObject r "a" false none) ≠ .ok (.num 1) := by
  have h : (findPropInObject (.num 0) "a" false (some (.num 1))).bind
      (fun r => findPropInObject r "a" false none) = .ok (.num 0) := rfl
  rw [h]
  simp

/-- Claim C1, corrected.  Round-trip law `get(set(root, path, x), path) = x`
through `findPropInObject` with `copyByRef = false` and a literal
replacement `x`, restricted to composite chains: descending the parsed,
wildcard-free path as the write does (existing sub-values are entered,
members reading as `undefined` are replaced by a fresh empty mapping) meets
at every level a mapping addressed by an ordinary own-key segment
(non-empty, not a prototype property name) or a sequence addressed by a
canonical index segment, and when `x` is the undefined-marker the final
level is a mapping.  As stated — over every root value and every
wildcard-free path — the claim fails, e.g. on non-composite roots
(`C1_counterexample`), on non-mapping non-sequence intermediates, on
sequence levels with non-index keys, and on the deleting write at a
sequence index. -/
theorem C1_roundtrip (v : JSValue) (pathStr : String) (x : JSValue)
    (h : chainW (isUndef x) v (parsePath pathStr) = true) :
    (findPropInObject v pathStr false (some x)).bind
      (fun r => findPropInObject r pathStr false none) = .ok x := by
  obtain ⟨w, hset, _, hget⟩ := chainRoundTripSegs (parsePath pathStr) v x h
  simp [findPropInObject, hset, hget, Except.bind]

/-- Witness for `C1_roundtrip` at the root of one mapping entry holding an
empty sequence, the mixed path `"a.0.b"` and the replacement `7`: the write
enters the sequence, materialises a mapping at index `0`, and the read
returns `7`. -/
theorem C1_roundtrip_witness :
    chainW (isUndef (.num 7)) (.obj [("a", .arr [])]) (parsePath "a.0.b") = true ∧
    (findPropInObject (.obj [("a", .arr [])]) "a.0.b" false (some (.num 7))).bind
      (fun r => findPropInObject r "a.0.b" false none) = .ok (.num 7) :=
  ⟨by decide, C1_roundtrip (.obj [("a", .arr [])]) "a.0.b" (.num 7) (by decide)⟩

/-- Counterexample to claim C2 as stated.  Removing index `"1"` from the
sequence `[1,2,3]` splices the element out and shifts later elements down,
so the very same path `"1"` now addresses the value `3`: the subsequent
`get` returns `3`, not the undefined-marker. -/
theorem C2_counterexample :
    (findPropInObject (.arr [.num 1, .num 2, .num 3]) "1" false (some .undef)).bind
      (fun r => findPropInObject r "1" false none) ≠ .ok .undef := by
  have h : (findPropInObject (.arr [.num 1, .num 2, .num 3]) "1" false (some .undef)).bind
      (fun r => findPropInObject r "1" false none) = .ok (.num 3) := rfl
  rw [h]
  simp

/-- Claim C2, corrected.  Writing the undefined-marker
(`set(root, path, undefined)`, i.e. remove) deletes the addressed entry and
a subsequent `get` on the same path yields the undefined-marker — on
composite chains whose final level is a mapping addressed by an ordinary
own-key segment (sequence levels addressed by canonical indices are allowed
in between), where deletion removes the key.  As stated — over every
root — the claim fails: deleting a sequence index shifts later elements
onto the same path (`C2_counterexample`), and on non-composite roots the
read returns the root itself. -/
theorem C2_remove_get (v : JSValue) (pathStr : String)
    (h : chainW true v (parsePath pathStr) = true) :
    (findPropInObject v pathStr false (some .undef)).bind
      (fun r => findPropInObject r pathStr false none) = .ok .undef := by
  obtain ⟨w, hset, _, hget⟩ := chainRoundTripSegs (parsePath pathStr) v .undef h
  simp [findPropInObject, hset, hget, Except.bind]

/-- Witness for `C2_remove_get` at the root of one mapping entry `a = 5`
and the path `"a"`: after the removing write the key `"a"` is gone and the
read yields the undefined-marker. -/
theorem C2_remove_get_witness :
    chainW true (.obj [("a", .num 5)]) (parsePath "a") = true ∧
    (findPropInObject (.obj [("a", .num 5)]) "a" false (some .undef)).bind
      (fun r => findPropInObject r "a" false none) = .ok .undef :=
  ⟨by decide, C2_remove_get (.obj [("a", .num 5)]) "a" (by decide)⟩

/-! ## Claims C5, C6, C7: non-composite containers, materialisation,
wildcard deletion -/

theorem wipeArray_eq_nil (xs : List JSValue) : wipeArray xs = [] := by
  induction xs with
  | nil => rfl
  | cons x rest ih => simpa [wipeArray] using ih

/-- Counterexample to claim C5 as stated.  A multi-segment read on the
non-composite container `5` does not return the container: the missing
branch is replaced by an empty mapping (`result[prop] || ...`) and the
terminal read yields the undefined-marker, so `get(5, "a.b")` is
`undefined`, not `5`. -/
theorem C5_counterexample :
    findPropInObject (.num 5) "a.b" false none ≠ .ok (.num 5) := by
  have h : findPropInObject (.num 5) "a.b" false none = .ok .undef := rfl
  rw [h]
  simp

/-- Claim C5, corrected.  For a container whose classified kind is neither
sequence nor mapping and a single-segment path, a read returns the container
itself and a write is a no-op returning the original container (both are the
early return of `findDirectPropInObject`, which precedes every member
access).  As stated — for multi-segment paths as well — the claim fails: a
multi-segment read yields the undefined-marker instead
(`C5_counterexample`), a multi-segment write with a literal head segment
raises a `TypeError` in the strict-mode source, and a `null`/`undefined`
root even fails a multi-segment read. -/
theorem C5_noncomposite_single (v : JSValue) (pathStr : String) (copyByRef : Bool)
    (args : Option JSValue)
    (hv : getObjectType v ≠ "array" ∧ getObjectType v ≠ "object")
    (hp : (parsePath pathStr).length = 1) :
    findPropInObject v pathStr copyByRef args = .ok v := by
  unfold findPropInObject
  obtain ⟨p, hp2⟩ : ∃ p, parsePath pathStr = [p] := by
    match hps : parsePath pathStr with
    | [] => rw [hps] at hp; simp at hp
    | [p] => exact ⟨p, rfl⟩
    | a :: b :: t => rw [hps] at hp; simp at hp
  rw [hp2]
  simp [findPropInObjectSegs, findDirectPropInObject, hv.1, hv.2]

/-- Witness for `C5_noncomposite_single`: reading or writing the single
segment `"a"` on the number `5` returns `5` unchanged. -/
theorem C5_noncomposite_single_witness :
    (getObjectType (.num 5) ≠ "array" ∧ getObjectType (.num 5) ≠ "object") ∧
    (parsePath "a").length = 1 ∧
    findPropInObject (.num 5) "a" false (some (.num 7)) = .ok (.num 5) :=
  ⟨⟨by decide, by decide⟩, rfl,
    C5_noncomposite_single (.num 5) "a" false (some (.num 7)) ⟨by decide, by decide⟩ rfl⟩

/-- Every write whose current container is the empty mapping and whose
segments avoid the prototype property names succeeds (used for the
materialisation claim C6: the freshly created mapping can absorb such a
remaining path). -/
theorem emptyObjWriteOk : ∀ (path : List String) (copyByRef : Bool) (x : JSValue),
    (∀ s ∈ path, s ∉ objectProtoKeys) →
    ∃ w, findPropInObjectSegs (.obj []) path copyByRef (some x) = .ok w := by
  intro path
  induction path with
  | nil => exact fun c x _ => ⟨.obj [], rfl⟩
  | cons p tail ih =>
    intro c x hsafe
    have hp3 := hsafe p (by simp)
    have hsp : p ≠ "__proto__" := ne_proto_of_not_mem p hp3
    cases tail with
    | nil =>
      by_cases hpe : p = ""
      · subst hpe
        exact ⟨.obj [], by simp [findPropInObjectSegs, findDirectPropInObject, getObjectType]⟩
      · by_cases hpw : p = "*"
        · subst hpw
          refine ⟨.obj [], ?_⟩
          cases hux : isUndef x <;>
            simp [findPropInObjectSegs, findDirectPropInObject, getObjectType, hux]
        · cases hux : isUndef x
          · exact ⟨.obj (setKey [] p x),
              by simp [findPropInObjectSegs, findDirectPropInObject, getObjectType,
                hpe, hpw, hux, setPropE, hsp]⟩
          · exact ⟨.obj (removeKey [] p),
              by simp [findPropInObjectSegs, findDirectPropInObject, getObjectType,
                hpe, hpw, hux]⟩
    | cons q rest =>
      by_cases hpw : p = "*"
      · subst hpw
        exact ⟨.obj [], by simp [findPropInObjectSegs, mapME, Except.map]⟩
      · obtain ⟨w, hw⟩ := ih c x (fun s hs => hsafe s (by simp [hs]))
        refine ⟨.obj (setKey [] p w), ?_⟩
        rw [writeStep_eq (.obj []) p q rest c x hpw _ (getPropE_obj_none [] p rfl hp3)]
        simp [isUndef, setPropE_obj_ne_proto _ _ _ hsp, hw, setKey_setKey]

/-- Counterexample to claim C6 as stated.  On the non-composite container
`5` the first-segment value of `"x.y"` is absent, but the write does not
materialise an empty mapping and succeed: the strict-mode assignment
`result[prop] = ...` of the fresh mapping on a number throws a
`TypeError`. -/
theorem C6_counterexample :
    findPropInObject (.num 5) "x.y" false (some (.num 1)) = .error .typeError := rfl

/-- The first segment of a materialising write addresses a storable own
slot: any key on a mapping (the read below already rules the prototype
names out), a canonical index on a sequence. -/
def ownSlot (v : JSValue) (p : String) : Bool :=
  match v with
  | .obj _ => true
  | .arr _ => (toArrayIndex p).isSome
  | _ => false

/-- Claim C6, corrected.  For a multi-segment write on a composite
(sequence or mapping) container whose non-wildcard first segment reads as
`undefined` and addresses a storable own slot, the engine materialises an
empty mapping there, recurses into the remaining path on that sub-value,
and stores the recursion's result back at the first segment; when the
remaining segments avoid the prototype property names the recursion on the
fresh mapping succeeds, so the write returns the container updated at the
first segment.  As stated — for every container and first segment — the
claim fails on non-composite containers, which throw a `TypeError` instead
(`C6_counterexample`), and the executions reaching a prototype-chain member
(an inherited first segment does not read as `undefined` in the engine) are
outside the modelled fragment. -/
theorem C6_materialize (v : JSValue) (pathStr : String) (x : JSValue)
    (p : String) (restPath : List String)
    (hp : parsePath pathStr = p :: restPath)
    (hrest : restPath ≠ [])
    (hw : p ≠ "*")
    (habs : getPropE v p = .ok .undef)
    (hslot : ownSlot v p = true)
    (hrOK : ∀ s ∈ restPath, s ∉ objectProtoKeys) :
    findPropInObject v pathStr false (some x) =
      (setPropE v p (.obj [])).bind (fun v1 =>
        (findPropInObjectSegs (.obj []) restPath false (some x)).bind
          (fun sub => setPropE v1 p sub)) ∧
    ∃ w r, findPropInObjectSegs (.obj []) restPath false (some x) = .ok w ∧
      findPropInObject v pathStr false (some x) = .ok r := by
  unfold findPropInObject
  rw [hp]
  cases restPath with
  | nil => exact absurd rfl hrest
  | cons q rest =>
    obtain ⟨w, hwok⟩ := emptyObjWriteOk (q :: rest) false x hrOK
    cases v with
    | obj fs =>
      have hset1 : setPropE (.obj fs) p (.obj []) = .ok (.obj (setKey fs p (.obj []))) := by
        by_cases hpp : p = "__proto__"
        · subst hpp
          cases hlk : lookupKey fs "__proto__" with
          | some c => exact setPropE_obj_own_proto fs _ c hlk
          | none =>
            rw [getPropE] at habs
            rw [hlk, if_pos (by decide : objectProtoKeys.contains "__proto__" = true)] at habs
            exact Except.noConfusion habs
        · exact setPropE_obj_ne_proto fs p _ hpp
      have hset2 : ∀ u, setPropE (.obj (setKey fs p (.obj []))) p u =
          .ok (.obj (setKey fs p u)) := by
        intro u
        by_cases hpp : p = "__proto__"
        · subst hpp
          rw [setPropE_obj_own_proto _ _ _ (lookupKey_setKey_self fs _ _), setKey_setKey]
        · rw [setPropE_obj_ne_proto _ _ _ hpp, setKey_setKey]
      rw [writeStep_eq (.obj fs) p q rest false x hw _ habs]
      constructor
      · simp only [isUndef, if_true, hset1, Except.bind]
        cases hr : findPropInObjectSegs (.obj []) (q :: rest) false (some x) with
        | error e => rfl
        | ok sub => rfl
      · exact ⟨w, .obj (setKey fs p w),
          hwok, by simp [isUndef, hset1, hwok, hset2]⟩
    | arr xs =>
      obtain ⟨i, hi⟩ := Option.isSome_iff_exists.mp (by simpa [ownSlot] using hslot)
      have hset1 := setPropE_arr_idx xs p i (.obj []) hi
      have hset2 : ∀ u, setPropE (.arr (listSetPad xs i (.obj []))) p u =
          .ok (.arr (listSetPad xs i u)) := by
        intro u
        rw [setPropE_arr_idx _ _ _ _ hi, listSetPad_listSetPad]
      rw [writeStep_eq (.arr xs) p q rest false x hw _ habs]
      constructor
      · simp only [isUndef, if_true, hset1, Except.bind]
        cases hr : findPropInObjectSegs (.obj []) (q :: rest) false (some x) with
        | error e => rfl
        | ok sub => rfl
      · exact ⟨w, .arr (listSetPad xs i w),
          hwok, by simp [isUndef, hset1, hwok, hset2]⟩
    | undef => simp [ownSlot] at hslot
    | nul => simp [ownSlot] at hslot
    | boolean b => simp [ownSlot] at hslot
    | num n => simp [ownSlot] at hslot
    | str s => simp [ownSlot] at hslot

/-- Witness for `C6_materialize`: writing `1` at `"a.b"` into the mapping
holding only `z = 0` materialises a mapping holding `b = 1` under the
absent key `"a"`. -/
theorem C6_materialize_witness :
    (findPropInObject (.obj [("z", .num 0)]) "a.b" false (some (.num 1)) =
      .ok (.obj [("z", .num 0), ("a", .obj [("b", .num 1)])])) ∧
    ((findPropInObject (.obj [("z", .num 0)]) "a.b" false (some (.num 1)) =
      (setPropE (.obj [("z", .num 0)]) "a" (.obj [])).bind (fun v1 =>
        (findPropInObjectSegs (.obj []) ["b"] false (some (.num 1))).bind
          (fun sub => setPropE v1 "a" sub))) ∧
     ∃ w r, findPropInObjectSegs (.obj []) ["b"] false (some (.num 1)) = .ok w ∧
       findPropInObject (.obj [("z", .num 0)]) "a.b" false (some (.num 1)) = .ok r) :=
  ⟨rfl, C6_materialize (.obj [("z", .num 0)]) "a.b" (.num 1) "a" ["b"]
    rfl (by simp) (by decide) rfl rfl (by decide)⟩

/-- Claim C7, confirmed.  For every sequence root, the single-segment
wildcard write of the undefined-marker (`set(root, "*", undefined)`) deletes
every element and returns the empty sequence, in either copy mode: the
deletion loop (`while (result.length)` splicing index `0`) re-reads the
head each time, so no element is skipped. -/
theorem C7_wildcard_delete (xs : List JSValue) (copyByRef : Bool) :
    findPropInObject (.arr xs) "*" copyByRef (some .undef) = .ok (.arr []) := by
  have hp : parsePath "*" = ["*"] := rfl
  unfold findPropInObject
  rw [hp]
  simp [findPropInObjectSegs, findDirectPropInObject, getObjectType, isUndef, wipeArray_eq_nil]

/-! ## Claim C4: no-throw conditions -/

theorem bor_elim {a b : Bool} (h : (a || b) = true) : a = true ∨ b = true := by
  cases a
  · right
    simpa using h
  · left
    rfl

theorem isOk_ok {ε α : Type} (a : α) : (Except.ok a : Except ε α).isOk = true := rfl

theorem isOk_map {ε α β : Type} (f : α → β) (e : Except ε α) :
    (e.map f).isOk = e.isOk := by
  cases e <;> rfl

theorem mapME_isOk {ε α β : Type} (f : α → Except ε β) (xs : List α)
    (h : ∀ x ∈ xs, (f x).isOk = true) : (mapME f xs).isOk = true := by
  induction xs with
  | nil => rfl
  | cons x rest ih =>
    have hx := h x (by simp)
    cases hfx : f x with
    | error e =>
      rw [hfx] at hx
      exact absurd hx (by simp [Except.isOk, Except.toBool])
    | ok y =>
      have hr := ih (fun z hz => h z (by simp [hz]))
      cases hmr : mapME f rest with
      | error e =>
        rw [hmr] at hr
        exact absurd hr (by simp [Except.isOk, Except.toBool])
      | ok ys => simp [mapME, hfx, hmr, Except.isOk, Except.toBool]

theorem getPropE_obj_exists (fs : List (String × JSValue)) (p : String)
    (h : (lookupKey fs p).isSome = true ∨ p ∉ objectProtoKeys) :
    ∃ cv, getPropE (.obj fs) p = .ok cv := by
  cases hlk : lookupKey fs p with
  | some w => exact ⟨w, getPropE_obj_some _ _ _ hlk⟩
  | none =>
    rcases h with h | h
    · rw [hlk] at h
      simp at h
    · exact ⟨.undef, getPropE_obj_none _ _ hlk h⟩

theorem getPropE_arr_exists (xs : List JSValue) (p : String)
    (h : (toArrayIndex p).isSome = true ∨ p = "length" ∨
      (p ∉ arrayProtoMethodKeys ∧ p ∉ objectProtoKeys)) :
    ∃ cv, getPropE (.arr xs) p = .ok cv := by
  cases hi : toArrayIndex p with
  | some i => exact ⟨_, getPropE_arr_idx _ _ _ hi⟩
  | none =>
    rcases h with h | h | ⟨h1, h2⟩
    · rw [hi] at h
      simp at h
    · subst h
      exact ⟨.num xs.length, by simp [getPropE, hi]⟩
    · by_cases hl : p = "length"
      · subst hl
        exact ⟨.num xs.length, by simp [getPropE, hi]⟩
      · exact ⟨.undef, by simp [getPropE, hi, hl, h1, h2]⟩

theorem getPropE_str_exists (s : String) (p : String)
    (h : (toArrayIndex p).isSome = true ∨ p = "length" ∨
      (p ∉ stringProtoMethodKeys ∧ p ∉ objectProtoKeys)) :
    ∃ cv, getPropE (.str s) p = .ok cv := by
  cases hi : toArrayIndex p with
  | some i =>
    cases hc : s.data[i]? with
    | some ch => exact ⟨.str (String.mk [ch]), by simp [getPropE, hi, hc]⟩
    | none => exact ⟨.undef, by simp [getPropE, hi, hc]⟩
  | none =>
    rcases h with h | h | ⟨h1, h2⟩
    · rw [hi] at h
      simp at h
    · subst h
      exact ⟨.num s.data.length, by simp [getPropE, hi]⟩
    · by_cases hl : p = "length"
      · subst hl
        exact ⟨.num s.data.length, by simp [getPropE, hi]⟩
      · exact ⟨.undef, by simp [getPropE, hi, hl, h1, h2]⟩

theorem getPropE_num_ok (n : Int) (p : String)
    (h1 : p ∉ numberProtoMethodKeys) (h2 : p ∉ objectProtoKeys) :
    getPropE (.num n) p = .ok .undef := by
  simp [getPropE, h1, h2]

theorem getPropE_boolean_ok (b : Bool) (p : String)
    (h1 : p ∉ booleanProtoMethodKeys) (h2 : p ∉ objectProtoKeys) :
    getPropE (.boolean b) p = .ok .undef := by
  simp [getPropE, h1, h2]

theorem setPropE_obj_exists (fs : List (String × JSValue)) (p : String) (x : JSValue)
    (h : (lookupKey fs p).isSome = true ∨ p ∉ objectProtoKeys) :
    setPropE (.obj fs) p x = .ok (.obj (setKey fs p x)) := by
  by_cases hpp : p = "__proto__"
  · subst hpp
    rcases h with h | h
    · obtain ⟨w, hw⟩ := Option.isSome_iff_exists.mp h
      exact setPropE_obj_own_proto _ _ _ hw
    · exact absurd (by decide : "__proto__" ∈ objectProtoKeys) h
  · exact setPropE_obj_ne_proto _ _ _ hpp

/-- The read step of a multi-segment path on a number (wildcard or not, the
engine falls through to `result[prop] || ...`). -/
theorem readStepPrim_num (n : Int) (p q : String) (rest : List String) (c : Bool)
    (cv : JSValue) (hg : getPropE (.num n) p = .ok cv) :
    findPropInObjectSegs (.num n) (p :: q :: rest) c none =
      findPropInObjectSegs (if truthy cv then cv else .obj []) (q :: rest) c none := by
  by_cases hp : p = "*"
  · subst hp
    simp [findPropInObjectSegs, hg]
  · simp [findPropInObjectSegs, hp, hg]

/-- The read step of a multi-segment path on a boolean. -/
theorem readStepPrim_boolean (b : Bool) (p q : String) (rest : List String) (c : Bool)
    (cv : JSValue) (hg : getPropE (.boolean b) p = .ok cv) :
    findPropInObjectSegs (.boolean b) (p :: q :: rest) c none =
      findPropInObjectSegs (if truthy cv then cv else .obj []) (q :: rest) c none := by
  by_cases hp : p = "*"
  · subst hp
    simp [findPropInObjectSegs, hg]
  · simp [findPropInObjectSegs, hp, hg]

/-- The read step of a multi-segment path on a string. -/
theorem readStepPrim_str (s : String) (p q : String) (rest : List String) (c : Bool)
    (cv : JSValue) (hg : getPropE (.str s) p = .ok cv) :
    findPropInObjectSegs (.str s) (p :: q :: rest) c none =
      findPropInObjectSegs (if truthy cv then cv else .obj []) (q :: rest) c none := by
  by_cases hp : p = "*"
  · subst hp
    simp [findPropInObjectSegs, hg]
  · simp [findPropInObjectSegs, hp, hg]

theorem readChildT_spec (v : JSValue) (p : String) (cv : JSValue)
    (hg : getPropE v p = .ok cv) :
    readChildT v p = if truthy cv then cv else .obj [] := by
  simp [readChildT, hg]

theorem writeChild_spec (v : JSValue) (p : String) (cv : JSValue)
    (hg : getPropE v p = .ok cv) :
    writeChild v p = if isUndef cv then .obj [] else cv := by
  simp [writeChild, hg]

/-- A safe single segment completes without an exception. -/
theorem direct_isOk (v : JSValue) (p : String) (c : Bool) (args : Option JSValue)
    (h : safeSegs v [p] args.isSome = true) :
    (findDirectPropInObject v p c args).isOk = true := by
  cases v with
  | obj fs =>
    cases args with
    | some value =>
      simp only [safeSegs, Option.isSome_some, if_true, Bool.and_eq_true] at h
      obtain ⟨h1, h2⟩ := h
      by_cases hpe : p = ""
      · subst hpe
        simp [findDirectPropInObject, getObjectType, isOk_ok]
      · by_cases hpw : p = "*"
        · subst hpw
          have hc : ((fs.map (fun kv => kv.1)).contains "*") = false := by
            revert h1
            cases hcc : (fs.map (fun kv => kv.1)).contains "*" <;> simp
          have hni : ¬(((fs.map (fun kv => kv.1)).contains "*") = true) := by
            rw [hc]
            exact Bool.false_ne_true
          cases hux : isUndef value <;>
            simp [findDirectPropInObject, getObjectType, hux, if_neg hni, isOk_ok]
        · cases hux : isUndef value
          · by_cases hpp : p = "__proto__"
            · subst hpp
              have hlk : (lookupKey fs "__proto__").isSome = true := by
                revert h2
                cases hll : lookupKey fs "__proto__" <;> simp
              obtain ⟨w, hw⟩ := Option.isSome_iff_exists.mp hlk
              simp [findDirectPropInObject, getObjectType, hpe, hpw, hux,
                setPropE_obj_own_proto _ _ _ hw, isOk_ok]
            · simp [findDirectPropInObject, getObjectType, hpe, hpw, hux,
                setPropE_obj_ne_proto _ _ _ hpp, isOk_ok]
          · simp [findDirectPropInObject, getObjectType, hpe, hpw, hux, isOk_ok]
    | none =>
      by_cases hpe : p = ""
      · subst hpe
        simp [findDirectPropInObject, getObjectType, isOk_ok]
      · by_cases hpw : p = "*"
        · subst hpw
          simp [findDirectPropInObject, getObjectType, isOk_ok]
        · simp only [safeSegs, Option.isSome_none, Bool.false_eq_true, if_false] at h
          have hex : ∃ cv, getPropE (.obj fs) p = .ok cv := by
            apply getPropE_obj_exists
            simp [hpe, hpw] at h
            exact h
          obtain ⟨cv, hg⟩ := hex
          simp [findDirectPropInObject, getObjectType, hpe, hpw, hg, isOk_ok]
  | arr xs =>
    cases args with
    | some value =>
      simp only [safeSegs, Option.isSome_some, if_true] at h
      by_cases hpe : p = ""
      · subst hpe
        simp [findDirectPropInObject, getObjectType, isOk_ok]
      · by_cases hpw : p = "*"
        · subst hpw
          cases hux : isUndef value <;>
            simp [findDirectPropInObject, getObjectType, hux, isOk_ok]
        · have hidx : (toArrayIndex p).isSome = true := by
            simp [hpe, hpw] at h
            exact h
          obtain ⟨i, hi⟩ := Option.isSome_iff_exists.mp hidx
          cases hux : isUndef value
          · simp [findDirectPropInObject, getObjectType, hpe, hpw, hux,
              setPropE_arr_idx _ _ _ _ hi, isOk_ok]
          · simp [findDirectPropInObject, getObjectType, hpe, hpw, hux, isOk_ok]
    | none =>
      by_cases hpe : p = ""
      · subst hpe
        simp [findDirectPropInObject, getObjectType, isOk_ok]
      · by_cases hpw : p = "*"
        · subst hpw
          simp [findDirectPropInObject, getObjectType, isOk_ok]
        · simp only [safeSegs, Option.isSome_none, Bool.false_eq_true, if_false] at h
          have hex : ∃ cv, getPropE (.arr xs) p = .ok cv := by
            apply getPropE_arr_exists
            simp [hpe, hpw] at h
            exact or_assoc.mp h
          obtain ⟨cv, hg⟩ := hex
          simp [findDirectPropInObject, getObjectType, hpe, hpw, hg, isOk_ok]
  | undef => cases args <;> simp [findDirectPropInObject, getObjectType, isOk_ok]
  | nul => cases args <;> simp [findDirectPropInObject, getObjectType, isOk_ok]
  | boolean b => cases args <;> simp [findDirectPropInObject, getObjectType, isOk_ok]
  | num n => cases args <;> simp [findDirectPropInObject, getObjectType, isOk_ok]
  | str s => cases args <;> simp [findDirectPropInObject, getObjectType, isOk_ok]

/-- On safe inputs the path engine reports no exception. -/
theorem safeSegs_isOk : ∀ (path : List String) (v : JSValue) (copyByRef : Bool)
    (args : Option JSValue), safeSegs v path args.isSome = true →
    (findPropInObjectSegs v path copyByRef args).isOk = true := by
  intro path
  induction path with
  | nil => intro v c args h; rfl
  | cons p tail ih =>
    intro v c args h
    cases tail with
    | nil => exact direct_isOk v p c args h
    | cons q rest =>
      cases args with
      | some value =>
        cases v with
        | arr xs =>
          by_cases hp : p = "*"
          · subst hp
            rw [show safeSegs (JSValue.arr xs) ("*" :: q :: rest) (some value).isSome =
                xs.all (fun x => safeSegs x (q :: rest) true) from rfl,
              List.all_eq_true] at h
            rw [show findPropInObjectSegs (JSValue.arr xs) ("*" :: q :: rest) c (some value) =
                (mapME (fun item => findPropInObjectSegs item (q :: rest) c (some value)) xs).map
                  .arr from rfl,
              isOk_map]
            exact mapME_isOk _ xs (fun x hx => ih x c (some value) (h x hx))
          · simp only [safeSegs, Option.isSome_some, if_true, if_neg hp,
              Bool.and_eq_true] at h
            obtain ⟨hidx, hrec⟩ := h
            obtain ⟨i, hi⟩ := Option.isSome_iff_exists.mp hidx
            have hg := getPropE_arr_idx xs p i hi
            rw [writeChild_spec _ _ _ hg] at hrec
            rw [writeStep_eq (.arr xs) p q rest c value hp _ hg]
            cases hc0 : isUndef (xs.getD i .undef) with
            | true =>
              rw [hc0] at hrec
              simp only [if_true]
              have hr := ih (.obj []) c (some value) hrec
              rw [setPropE_arr_idx _ _ _ _ hi]
              cases hrr : findPropInObjectSegs (.obj []) (q :: rest) c (some value) with
              | error e =>
                rw [hrr] at hr
                exact absurd hr (by simp [Except.isOk, Except.toBool])
              | ok sub => simp [setPropE_arr_idx _ _ _ _ hi, isOk_ok]
            | false =>
              rw [hc0] at hrec
              have hr := ih (xs.getD i .undef) c (some value) hrec
              rw [if_neg (by simp)]
              cases hrr : findPropInObjectSegs (xs.getD i .undef) (q :: rest) c (some value) with
              | error e =>
                rw [hrr] at hr
                exact absurd hr (by simp [Except.isOk, Except.toBool])
              | ok sub => simp [setPropE_arr_idx _ _ _ _ hi, isOk_ok]
        | obj fs =>
          by_cases hp : p = "*"
          · subst hp
            rw [show safeSegs (JSValue.obj fs) ("*" :: q :: rest) (some value).isSome =
                (!((fs.map (fun kv => kv.1)).contains "*") &&
                  fs.all (fun kv => safeSegs kv.2 (q :: rest) true)) from rfl,
              Bool.and_eq_true, List.all_eq_true] at h
            rw [show findPropInObjectSegs (JSValue.obj fs) ("*" :: q :: rest) c (some value) =
                (mapME (fun kv =>
                  (findPropInObjectSegs kv.2 (q :: rest) c (some value)).map
                    (fun w => (kv.1, w))) fs).map .obj from rfl,
              isOk_map]
            refine mapME_isOk _ fs (fun kv hkv => ?_)
            rw [isOk_map]
            exact ih kv.2 c (some value) (h.2 kv hkv)
          · simp only [safeSegs, Option.isSome_some, if_true, if_neg hp,
              Bool.and_eq_true] at h
            obtain ⟨hcond, hrec⟩ := h
            have hcond' : (lookupKey fs p).isSome = true ∨ p ∉ objectProtoKeys := by
              rcases bor_elim hcond with hc | hc
              · exact Or.inl hc
              · right
                simpa using hc
            obtain ⟨cv, hg⟩ := getPropE_obj_exists fs p hcond'
            rw [writeChild_spec _ _ _ hg] at hrec
            rw [writeStep_eq (.obj fs) p q rest c value hp _ hg]
            cases hc0 : isUndef cv with
            | true =>
              rw [hc0] at hrec
              simp only [if_true]
              have hr := ih (.obj []) c (some value) hrec
              rw [setPropE_obj_exists _ _ _ hcond']
              cases hrr : findPropInObjectSegs (.obj []) (q :: rest) c (some value) with
              | error e =>
                rw [hrr] at hr
                exact absurd hr (by simp [Except.isOk, Except.toBool])
              | ok sub =>
                have hwr : setPropE (.obj (setKey fs p (.obj []))) p sub =
                    .ok (.obj (setKey (setKey fs p (.obj [])) p sub)) :=
                  setPropE_obj_exists _ _ _ (Or.inl (by simp [lookupKey_setKey_self]))
                simp [hwr, isOk_ok]
            | false =>
              rw [hc0] at hrec
              have hr := ih cv c (some value) hrec
              rw [if_neg (by simp)]
              cases hrr : findPropInObjectSegs cv (q :: rest) c (some value) with
              | error e =>
                rw [hrr] at hr
                exact absurd hr (by simp [Except.isOk, Except.toBool])
              | ok sub => simp [setPropE_obj_exists _ _ _ hcond', isOk_ok]
        | undef =>
          have hp : p = "*" := by simpa [safeSegs] using h
          subst hp
          rfl
        | nul =>
          have hp : p = "*" := by simpa [safeSegs] using h
          subst hp
          rfl
        | boolean b =>
          have hp : p = "*" := by simpa [safeSegs] using h
          subst hp
          rfl
        | num n =>
          have hp : p = "*" := by simpa [safeSegs] using h
          subst hp
          rfl
        | str s =>
          have hp : p = "*" := by simpa [safeSegs] using h
          subst hp
          rfl
      | none =>
        cases v with
        | undef => simp [safeSegs] at h
        | nul => simp [safeSegs] at h
        | arr xs =>
          by_cases hp : p = "*"
          · subst hp
            rw [show safeSegs (JSValue.arr xs) ("*" :: q :: rest) (none : Option JSValue).isSome =
                xs.all (fun x => safeSegs x (q :: rest) false) from rfl,
              List.all_eq_true] at h
            rw [show findPropInObjectSegs (JSValue.arr xs) ("*" :: q :: rest) c none =
                (mapME (fun item => findPropInObjectSegs item (q :: rest) c none) xs).map
                  .arr from rfl,
              isOk_map]
            exact mapME_isOk _ xs (fun x hx => ih x c none (h x hx))
          · simp only [safeSegs, Option.isSome_none, Bool.false_eq_true, if_false,
              if_neg hp, Bool.and_eq_true] at h
            obtain ⟨hcond, hrec⟩ := h
            have hex : ∃ cv, getPropE (.arr xs) p = .ok cv := by
              apply getPropE_arr_exists
              rcases bor_elim hcond with hc | hc
              · rcases bor_elim hc with hc2 | hc2
                · exact Or.inl hc2
                · exact Or.inr (Or.inl (by simpa using hc2))
              · exact Or.inr (Or.inr (by simpa [not_or] using hc))
            obtain ⟨cv, hg⟩ := hex
            rw [readChildT_spec _ _ _ hg] at hrec
            rw [readStep_eq (.arr xs) p q rest c hp _ hg]
            exact ih _ c none hrec
        | obj fs =>
          by_cases hp : p = "*"
          · subst hp
            rw [show safeSegs (JSValue.obj fs) ("*" :: q :: rest) (none : Option JSValue).isSome =
                fs.all (fun kv => safeSegs kv.2 (q :: rest) false) from rfl,
              List.all_eq_true] at h
            rw [show findPropInObjectSegs (JSValue.obj fs) ("*" :: q :: rest) c none =
                (mapME (fun kv => findPropInObjectSegs kv.2 (q :: rest) c none) fs).map
                  .arr from rfl,
              isOk_map]
            exact mapME_isOk _ fs (fun kv hkv => ih kv.2 c none (h kv hkv))
          · simp only [safeSegs, Option.isSome_none, Bool.false_eq_true, if_false,
              if_neg hp, Bool.and_eq_true] at h
            obtain ⟨hcond, hrec⟩ := h
            have hcond' : (lookupKey fs p).isSome = true ∨ p ∉ objectProtoKeys := by
              rcases bor_elim hcond with hc | hc
              · exact Or.inl hc
              · right
                simpa using hc
            obtain ⟨cv, hg⟩ := getPropE_obj_exists fs p hcond'
            rw [readChildT_spec _ _ _ hg] at hrec
            rw [readStep_eq (.obj fs) p q rest c hp _ hg]
            exact ih _ c none hrec
        | boolean b =>
          simp only [safeSegs, Option.isSome_none, Bool.false_eq_true, if_false,
            Bool.and_eq_true] at h
          obtain ⟨hcond, hrec⟩ := h
          have hcond' : p ∉ booleanProtoMethodKeys ∧ p ∉ objectProtoKeys := by
            simpa [not_or] using hcond
          have hg := getPropE_boolean_ok b p hcond'.1 hcond'.2
          rw [readChildT_spec _ _ _ hg] at hrec
          rw [readStepPrim_boolean b p q rest c _ hg]
          exact ih _ c none hrec
        | num n =>
          simp only [safeSegs, Option.isSome_none, Bool.false_eq_true, if_false,
            Bool.and_eq_true] at h
          obtain ⟨hcond, hrec⟩ := h
          have hcond' : p ∉ numberProtoMethodKeys ∧ p ∉ objectProtoKeys := by
            simpa [not_or] using hcond
          have hg := getPropE_num_ok n p hcond'.1 hcond'.2
          rw [readChildT_spec _ _ _ hg] at hrec
          rw [readStepPrim_num n p q rest c _ hg]
          exact ih _ c none hrec
        | str s =>
          simp only [safeSegs, Option.isSome_none, Bool.false_eq_true, if_false,
            Bool.and_eq_true] at h
          obtain ⟨hcond, hrec⟩ := h
          have hex : ∃ cv, getPropE (.str s) p = .ok cv := by
            apply getPropE_str_exists
            rcases bor_elim hcond with hc | hc
            · rcases bor_elim hc with hc2 | hc2
              · exact Or.inl hc2
              · exact Or.inr (Or.inl (by simpa using hc2))
            · exact Or.inr (Or.inr (by simpa [not_or] using hc))
          obtain ⟨cv, hg⟩ := hex
          rw [readChildT_spec _ _ _ hg] at hrec
          rw [readStepPrim_str s p q rest c _ hg]
          exact ih _ c none hrec

/-- Counterexample to claim C4 as stated.  Operations are not total over all
inputs: a multi-segment write on the primitive root `5` reaches the
strict-mode property creation `result[prop] = ...` of the fresh mapping on
a number, which raises a `TypeError` instead of degrading gracefully. -/
theorem C4_counterexample :
    findPropInObject (.num 5) "a.b" false (some (.num 1)) = .error .typeError := rfl

/-- Claim C4, corrected.  `findPropInObject` — hence `get`, `set`, `remove`
and string queries — completes without raising an exception whenever
`safeSegs` holds: every member a step reads is an own key, a canonical
index, a `length`, or an ordinary absent key (prototype property names lead
into host built-ins), every value met by a write with at least two
remaining segments is a sequence or mapping (or the pending segment is the
wildcard, which skips the value), multi-segment sequence steps use index
segments, single-segment array writes use empty, wildcard, or index keys
(the `length` write can throw a `RangeError`, e.g.
`set([1], "length", "x")`), a wildcard write never meets a mapping owning a
`"*"` key, an assignment never goes through the inherited `__proto__`
setter on a mapping without an own `__proto__` key, reads do not meet
`null`/`undefined`, and the children actually descended into are
recursively safe.  As stated — for every input — the claim fails:
multi-segment writes on primitives and multi-segment reads on
`null`/`undefined` throw `TypeError` (`C4_counterexample`), invalid array
`length` assignments throw `RangeError`, and `merge`/`applyDefaults` on
`null`/`undefined` arguments throw as well. -/
theorem C4_no_throw (v : JSValue) (pathStr : String) (copyByRef : Bool)
    (args : Option JSValue)
    (h : safeSegs v (parsePath pathStr) args.isSome = true) :
    (findPropInObject v pathStr copyByRef args).isOk = true :=
  safeSegs_isOk (parsePath pathStr) v copyByRef args h

/-- Witness for `C4_no_throw`: the write of `9` at `"a.b"` into the mapping
holding `a = 5` is safe (the number `5` is met with only one remaining
segment) and completes without an exception. -/
theorem C4_no_throw_witness :
    safeSegs (.obj [("a", .num 5)]) (parsePath "a.b")
      (some (JSValue.num 9) : Option JSValue).isSome = true ∧
    (findPropInObject (.obj [("a", .num 5)]) "a.b" false (some (.num 9))).isOk = true :=
  ⟨by decide, C4_no_throw (.obj [("a", .num 5)]) "a.b" false (some (.num 9)) (by decide)⟩

/-! ## Claim C8: merge -/

theorem stripLeadingBracket_id (cs : List Char) (h : ∀ c ∈ cs, c ≠ '[') :
    stripLeadingBracket cs = cs := by
  cases cs with
  | nil => rfl
  | cons c rest => simp [stripLeadingBracket, h c (by simp)]

theorem stripTrailingBracket_id (cs : List Char) (h : ∀ c ∈ cs, c ≠ ']') :
    stripTrailingBracket cs = cs := by
  unfold stripTrailingBracket
  split
  · rfl
  · next c r heq =>
    have hc : c ∈ cs := by
      rw [← List.mem_reverse, heq]
      simp
    rw [if_neg (h c hc)]

theorem stripBrackets_id (cs : List Char)
    (h : ∀ c ∈ cs, c ≠ '[' ∧ c ≠ ']') : stripBrackets cs = cs := by
  unfold stripBrackets
  rw [stripLeadingBracket_id cs (fun c hc => (h c hc).1),
    stripTrailingBracket_id cs (fun c hc => (h c hc).2)]

theorem bracketsToDots_id (cs : List Char)
    (h : ∀ c ∈ cs, c ≠ '[' ∧ c ≠ ']') : bracketsToDots cs = cs := by
  induction cs with
  | nil => rfl
  | cons c rest ih =>
    have hc := h c (by simp)
    have ht := ih (fun d hd => h d (by simp [hd]))
    simp only [bracketsToDots, List.map_cons] at ht ⊢
    rw [if_neg (by simp [hc.1, hc.2]), ht]

theorem collapseGo_id (cs : List Char) (h : ∀ c ∈ cs, c ≠ '.') :
    ∀ b, collapseGo b cs = cs := by
  induction cs with
  | nil => intro b; rfl
  | cons c rest ih =>
    intro b
    have hc := h c (by simp)
    simp only [collapseGo, if_neg hc]
    rw [ih (fun d hd => h d (by simp [hd])) false]

theorem splitGo_nodots (cs : List Char) : ∀ (acc : List Char), (∀ c ∈ cs, c ≠ '.') →
    splitGo acc cs = [String.mk (acc.reverse ++ cs)] := by
  induction cs with
  | nil => intro acc h; simp [splitGo]
  | cons c rest ih =>
    intro acc h
    have hc := h c (by simp)
    simp only [splitGo, if_neg hc]
    rw [ih (c :: acc) (fun d hd => h d (by simp [hd]))]
    simp

/-- A simple key survives path parsing as itself. -/
theorem parsePath_simpleKey (k : String) (hk : simpleKey k = true) :
    parsePath k = [k] := by
  rw [simpleKey, decide_eq_true_eq] at hk
  obtain ⟨hk1, hk2, hk3, hchars⟩ := hk
  unfold parsePath
  rw [stripBrackets_id _ (fun c hc => ⟨(hchars c hc).2.1, (hchars c hc).2.2⟩),
    bracketsToDots_id _ (fun c hc => ⟨(hchars c hc).2.1, (hchars c hc).2.2⟩),
    collapseGo_id _ (fun c hc => (hchars c hc).1) false,
    splitGo_nodots _ [] (fun c hc => (hchars c hc).1)]
  simp only [List.reverse_nil, List.nil_append]

theorem lookupKey_mem {α : Type} (fs : List (String × α)) (k : String) (v : α)
    (h : lookupKey fs k = some v) : (k, v) ∈ fs := by
  induction fs with
  | nil => simp [lookupKey] at h
  | cons kv rest ih =>
    obtain ⟨k1, v1⟩ := kv
    by_cases h1 : k1 = k
    · subst h1
      simp [lookupKey] at h
      subst h
      exact List.mem_cons_self _ _
    · simp only [lookupKey, if_neg h1] at h
      exact List.mem_cons_of_mem _ (ih h)

theorem mem_keys_lookupKey {α : Type} (fs : List (String × α)) (k : String)
    (h : k ∈ fs.map (fun kv => kv.1)) : ∃ v, lookupKey fs k = some v := by
  induction fs with
  | nil => simp at h
  | cons kv rest ih =>
    obtain ⟨k1, v1⟩ := kv
    by_cases h1 : k1 = k
    · exact ⟨v1, by simp [lookupKey, h1]⟩
    · rw [List.map_cons, List.mem_cons] at h
      rcases h with heq | hm
      · exact absurd heq.symm h1
      · obtain ⟨v, hv⟩ := ih hm
        exact ⟨v, by simp [lookupKey, h1, hv]⟩

theorem lookupKey_of_mem_nodup {α : Type} (fs : List (String × α))
    (hnd : (fs.map (fun kv => kv.1)).Nodup) (k : String) (v : α)
    (h : (k, v) ∈ fs) : lookupKey fs k = some v := by
  induction fs with
  | nil => simp at h
  | cons kv rest ih =>
    obtain ⟨k1, v1⟩ := kv
    rw [List.map_cons, List.nodup_cons] at hnd
    rcases List.mem_cons.mp h with heq | hmem
    · rw [Prod.mk.injEq] at heq
      obtain ⟨hk, hv⟩ := heq
      subst hk
      subst hv
      simp [lookupKey]
    · have hk1 : k1 ≠ k := by
        intro he
        apply hnd.1
        rw [he]
        exact List.mem_map.mpr ⟨(k, v), hmem, rfl⟩
      simp only [lookupKey, if_neg hk1]
      exact ih hnd.2 hmem

/-- A non-destructive single-simple-key literal write into a mapping is a
key update. -/
theorem merge_write_step (fs : List (String × JSValue)) (k : String) (x : JSValue)
    (hk : simpleKey k = true) (hx : isUndef x = false) :
    findPropInObject (.obj fs) k false (some x) = .ok (.obj (setKey fs k x)) := by
  unfold findPropInObject
  rw [parsePath_simpleKey k hk]
  have hk2 := hk
  rw [simpleKey, decide_eq_true_eq] at hk2
  obtain ⟨hke, hkw, hkp, _⟩ := hk2
  simp [findPropInObjectSegs, findDirectPropInObject, getObjectType, hke, hkw, hx,
    setPropE, hkp]

/-- The accumulator fold of `mergeObjects`: every processed key ends holding
the fragment's value for it, all other keys keep the accumulator's value. -/
theorem mergeFoldOk (ks : List String) :
    ∀ (bfs : List (String × JSValue)) (acc : List (String × JSValue)),
    (∀ k ∈ ks, simpleKey k = true) →
    (∀ k ∈ ks, ∃ w, lookupKey bfs k = some w ∧ isUndef w = false) →
    ∃ m, ks.foldlM (fun prev k =>
        (getPropE (.obj bfs) k).bind (fun bv => findPropInObject prev k false (some bv)))
        (JSValue.obj acc) = .ok (.obj m) ∧
      (∀ k, k ∉ ks → lookupKey m k = lookupKey acc k) ∧
      (∀ k w, k ∈ ks → lookupKey bfs k = some w → lookupKey m k = some w) := by
  induction ks with
  | nil =>
    intro bfs acc h1 h2
    exact ⟨acc, rfl, fun k _ => rfl, fun k w hk => absurd hk (by simp)⟩
  | cons k0 ks ih =>
    intro bfs acc h1 h2
    obtain ⟨w0, hw0, hw0u⟩ := h2 k0 (by simp)
    have hstep := merge_write_step acc k0 w0 (h1 k0 (by simp)) hw0u
    have hf : (getPropE (.obj bfs) k0).bind
        (fun bv => findPropInObject (.obj acc) k0 false (some bv)) =
        .ok (.obj (setKey acc k0 w0)) := by
      rw [getPropE_obj_some _ _ _ hw0]
      simpa [Except.bind] using hstep
    obtain ⟨m, hfold, hout, hin⟩ := ih bfs (setKey acc k0 w0)
      (fun k hk => h1 k (by simp [hk])) (fun k hk => h2 k (by simp [hk]))
    refine ⟨m, ?_, ?_, ?_⟩
    · rw [List.foldlM_cons, hf]
      simpa using hfold
    · intro k hk
      have hk0 : k ≠ k0 := fun he => hk (he ▸ List.mem_cons_self _ _)
      have hks : k ∉ ks := fun hm => hk (List.mem_cons_of_mem _ hm)
      rw [hout k hks, lookupKey_setKey_ne _ _ _ _ hk0]
    · intro k w hk hwk
      rcases List.mem_cons.mp hk with heq | hm
      · subst heq
        rw [hw0] at hwk
        have hww : w = w0 := (Option.some.inj hwk).symm
        subst hww
        by_cases hmem : k ∈ ks
        · exact hin k w hmem hw0
        · rw [hout k hmem, lookupKey_setKey_self]
      · exact hin k w hm hwk

/-- Counterexample to claim C8 as stated.  The fragment key `"*"` contains
no dot and no bracket, yet merging the fragment holding only `"*" = 9` into
the mapping holding `a = 1` does not produce a mapping in which `"*"` maps
to `9`: the key is the wildcard token, so the write maps `9` over every
existing entry, yielding the mapping holding `a = 9` and no `"*"` key. -/
theorem C8_counterexample :
    ∃ m, mergeObjects (.obj [("a", .num 1)]) (.obj [("*", .num 9)]) = .ok (.obj m) ∧
      lookupKey m "*" ≠ some (.num 9) :=
  ⟨[("a", .num 9)], rfl, by simp [lookupKey]⟩

/-- Claim C8, corrected.  For mappings `base` and `fragment` whose fragment
keys are non-empty, distinct, not the wildcard token, not `__proto__`, and
free of dots and brackets, and whose fragment values are not the
undefined-marker, `merge(base, fragment)` returns a mapping where every
fragment key holds the fragment's value and every other key holds `base`'s
value (`base` itself, being a value of the purely functional model, is
untouched; non-mutation is the store-level claim C3).  As stated the claim
admits the wildcard, empty-string and `__proto__` keys, on which it fails:
the wildcard overwrites every entry instead of creating a `"*"` key
(`C8_counterexample`), and a fragment `__proto__` key is swallowed by the
inherited accessor without creating an own key. -/
theorem C8_merge (base frag : List (String × JSValue))
    (hkeys : ∀ kv ∈ frag, simpleKey kv.1 = true)
    (hnodup : (frag.map (fun kv => kv.1)).Nodup)
    (hvals : ∀ kv ∈ frag, isUndef kv.2 = false) :
    ∃ m, mergeObjects (.obj base) (.obj frag) = .ok (.obj m) ∧
      (∀ k v, (k, v) ∈ frag → lookupKey m k = some v) ∧
      (∀ k, k ∉ frag.map (fun kv => kv.1) → lookupKey m k = lookupKey base k) := by
  have h1 : ∀ k ∈ frag.map (fun kv => kv.1), simpleKey k = true := by
    intro k hk
    rw [List.mem_map] at hk
    obtain ⟨kv, hkv, hke⟩ := hk
    exact hke ▸ hkeys kv hkv
  have h2 : ∀ k ∈ frag.map (fun kv => kv.1),
      ∃ w, lookupKey frag k = some w ∧ isUndef w = false := by
    intro k hk
    obtain ⟨v, hv⟩ := mem_keys_lookupKey frag k hk
    exact ⟨v, hv, hvals (k, v) (lookupKey_mem frag k v hv)⟩
  obtain ⟨m, hfold, hout, hin⟩ := mergeFoldOk (frag.map (fun kv => kv.1)) frag base h1 h2
  refine ⟨m, ?_, ?_, ?_⟩
  · simpa [mergeObjects, jsKeys, spreadToObj] using hfold
  · intro k v hkv
    exact hin k v (List.mem_map_of_mem _ hkv) (lookupKey_of_mem_nodup frag hnodup k v hkv)
  · exact hout

/-- Witness for `C8_merge` at the claim's own example: merging the fragment
`b = 3, c = 4` into the base `a = 1, b = 2` yields `a = 1, b = 3, c = 4`. -/
theorem C8_merge_witness :
    (mergeObjects (.obj [("a", .num 1), ("b", .num 2)])
        (.obj [("b", .num 3), ("c", .num 4)]) =
      .ok (.obj [("a", .num 1), ("b", .num 3), ("c", .num 4)])) ∧
    (∃ m, mergeObjects (.obj [("a", .num 1), ("b", .num 2)])
          (.obj [("b", .num 3), ("c", .num 4)]) = .ok (.obj m) ∧
      (∀ k v, (k, v) ∈ ([("b", JSValue.num 3), ("c", JSValue.num 4)] :
          List (String × JSValue)) → lookupKey m k = some v) ∧
      (∀ k, k ∉ ([("b", JSValue.num 3), ("c", JSValue.num 4)] :
          List (String × JSValue)).map (fun kv => kv.1) →
        lookupKey m k = lookupKey [("a", JSValue.num 1), ("b", JSValue.num 2)] k)) :=
  ⟨rfl, C8_merge _ _ (by decide) (by decide) (by decide)⟩

/-! ## Claims C9 and C10: deep copy and deep compare -/

theorem noShadowElems_mem (xs : List JSValue) (h : noShadowElems xs = true) :
    ∀ x ∈ xs, noShadow x = true := by
  induction xs with
  | nil => simp
  | cons x rest ih =>
    rw [noShadowElems, Bool.and_eq_true] at h
    intro y hy
    rcases List.mem_cons.mp hy with heq | hm
    · exact heq ▸ h.1
    · exact ih h.2 y hm

theorem noShadowFields_mem (fs : List (String × JSValue)) (h : noShadowFields fs = true) :
    ∀ kv ∈ fs, noShadow kv.2 = true := by
  induction fs with
  | nil => simp
  | cons kv rest ih =>
    obtain ⟨k, v⟩ := kv
    rw [noShadowFields, Bool.and_eq_true] at h
    intro y hy
    rcases List.mem_cons.mp hy with heq | hm
    · exact heq ▸ h.1
    · exact ih h.2 y hm

/-- Under the no-own-`toString` condition every dynamic `toString()`
succeeds. -/
theorem jsToStringE_trio : ∀ (n : Nat),
    (∀ v : JSValue, sizeOf v ≤ n → noShadow v = true → ∃ s, jsToStringE v = .ok s) ∧
    (∀ xs : List JSValue, sizeOf xs ≤ n → (∀ x ∈ xs, noShadow x = true) →
      ∃ s, joinElemsE xs = .ok s) ∧
    (∀ v : JSValue, sizeOf v ≤ n → noShadow v = true → ∃ s, elemToStringE v = .ok s) := by
  intro n
  induction n with
  | zero =>
    refine ⟨fun v h => ?_, fun xs h => ?_, fun v h => ?_⟩
    · cases v <;> simp at h
    · cases xs <;> simp at h
    · cases v <;> simp at h
  | succ n ih =>
    obtain ⟨ihv, ihe, ihel⟩ := ih
    have hv : ∀ v : JSValue, sizeOf v ≤ n + 1 → noShadow v = true →
        ∃ s, jsToStringE v = .ok s := by
      intro v h hns
      cases v with
      | arr xs =>
        have hx : sizeOf xs ≤ n := by simp at h; omega
        rw [noShadow] at hns
        obtain ⟨s, hs⟩ := ihe xs hx (noShadowElems_mem xs hns)
        exact ⟨s, by simp [jsToStringE, hs]⟩
      | obj fs =>
        rw [noShadow, Bool.and_eq_true] at hns
        have hlk : lookupKey fs "toString" = none := by
          have h1 := hns.1
          cases hl : lookupKey fs "toString" with
          | none => rfl
          | some w =>
            rw [hl] at h1
            simp at h1
        exact ⟨"[object Object]", by simp [jsToStringE, hlk]⟩
      | undef => exact ⟨"undefined", by simp [jsToStringE]⟩
      | nul => exact ⟨"null", by simp [jsToStringE]⟩
      | boolean b => exact ⟨if b then "true" else "false", by simp [jsToStringE]⟩
      | num m => exact ⟨toString m, by simp [jsToStringE]⟩
      | str s => exact ⟨s, by simp [jsToStringE]⟩
    refine ⟨hv, ?_, ?_⟩
    · intro xs h hns
      cases xs with
      | nil => exact ⟨"", by simp [joinElemsE]⟩
      | cons x rest =>
        cases rest with
        | nil =>
          have h1 : sizeOf x ≤ n := by simp at h; omega
          obtain ⟨s, hs⟩ := ihel x h1 (hns x (by simp))
          exact ⟨s, by simp [joinElemsE, hs]⟩
        | cons y t =>
          have h1 : sizeOf x ≤ n := by simp at h; omega
          have h2 : sizeOf (y :: t) ≤ n := by
            simp only [List.cons.sizeOf_spec] at h ⊢
            omega
          obtain ⟨s1, hs1⟩ := ihel x h1 (hns x (by simp))
          obtain ⟨s2, hs2⟩ := ihe (y :: t) h2 (fun z hz => hns z (by simp [hz]))
          exact ⟨s1 ++ "," ++ s2, by simp [joinElemsE, hs1, hs2]⟩
    · intro v h hns
      cases v with
      | undef => exact ⟨"", by simp [elemToStringE]⟩
      | nul => exact ⟨"", by simp [elemToStringE]⟩
      | boolean b =>
        obtain ⟨s, hs⟩ := hv (.boolean b) h hns
        exact ⟨s, by simp [elemToStringE, hs]⟩
      | num m =>
        obtain ⟨s, hs⟩ := hv (.num m) h hns
        exact ⟨s, by simp [elemToStringE, hs]⟩
      | str t =>
        obtain ⟨s, hs⟩ := hv (.str t) h hns
        exact ⟨s, by simp [elemToStringE, hs]⟩
      | arr xs =>
        obtain ⟨s, hs⟩ := hv (.arr xs) h hns
        exact ⟨s, by simp [elemToStringE, hs]⟩
      | obj fs =>
        obtain ⟨s, hs⟩ := hv (.obj fs) h hns
        exact ⟨s, by simp [elemToStringE, hs]⟩

theorem jsToStringE_ok (v : JSValue) (h : noShadow v = true) :
    ∃ s, jsToStringE v = .ok s :=
  (jsToStringE_trio (sizeOf v)).1 v (le_refl _) h

theorem jsToStringOptE_ok (v : JSValue) (h : noShadow v = true) :
    ∃ o, jsToStringOptE v = .ok o := by
  obtain ⟨s, hs⟩ := jsToStringE_ok v h
  cases v with
  | undef => exact ⟨none, rfl⟩
  | nul => exact ⟨none, rfl⟩
  | boolean b => exact ⟨some s, by simp [jsToStringOptE, hs, Except.map]⟩
  | num n => exact ⟨some s, by simp [jsToStringOptE, hs, Except.map]⟩
  | str t => exact ⟨some s, by simp [jsToStringOptE, hs, Except.map]⟩
  | arr xs => exact ⟨some s, by simp [jsToStringOptE, hs, Except.map]⟩
  | obj fs => exact ⟨some s, by simp [jsToStringOptE, hs, Except.map]⟩

/-- Reflexivity of `deepCompareE` on well-formed values without own
`toString` keys (an object with a duplicate key — unrepresentable in
JavaScript — could compare a later duplicate against the first occurrence
and fail; an own `toString` makes the terminal dynamic call throw). -/
theorem deepCompareE_refl_trio : ∀ (n : Nat),
    (∀ v : JSValue, sizeOf v ≤ n → wfJS v = true → noShadow v = true →
      deepCompareE v v = .ok true) ∧
    (∀ xs : List JSValue, sizeOf xs ≤ n →
      (∀ x ∈ xs, wfJS x = true ∧ noShadow x = true) →
      deepCompareElemsE xs xs = .ok true) ∧
    (∀ (fs FS : List (String × JSValue)), sizeOf fs ≤ n →
      (∀ kv ∈ fs, kv ∈ FS ∧ wfJS kv.2 = true ∧ noShadow kv.2 = true) →
      (FS.map (fun kv => kv.1)).Nodup →
      deepCompareFieldsE fs (.obj FS) = .ok true) := by
  intro n
  induction n with
  | zero =>
    refine ⟨fun v h => ?_, fun xs h => ?_, fun fs FS h => ?_⟩
    · cases v <;> simp at h
    · cases xs <;> simp at h
    · cases fs <;> simp at h
  | succ n ih =>
    obtain ⟨ihv, ihe, ihf⟩ := ih
    refine ⟨fun v h hwf hns => ?_, fun xs h hx => ?_, fun fs FS h hsub hnd => ?_⟩
    · cases v with
      | obj fs =>
        rw [wfJS, Bool.and_eq_true] at hwf
        rw [noShadow, Bool.and_eq_true] at hns
        have hf : sizeOf fs ≤ n := by simp at h; omega
        have hnd : (fs.map (fun kv => kv.1)).Nodup := by simpa using hwf.1
        have hfields := ihf fs fs hf
          (fun kv hkv =>
            ⟨hkv, wfFields_mem fs hwf.2 kv hkv, noShadowFields_mem fs hns.2 kv hkv⟩) hnd
        have hts : lookupKey fs "toString" = none := by
          have h1 := hns.1
          cases hl : lookupKey fs "toString" with
          | none => rfl
          | some w =>
            rw [hl] at h1
            simp at h1
        simp [deepCompareE, hfields, jsToStringOptE, jsToStringE, hts, Except.map]
      | arr xs =>
        have hns0 := hns
        rw [wfJS] at hwf
        rw [noShadow] at hns
        have hx : sizeOf xs ≤ n := by simp at h; omega
        have helems := ihe xs hx
          (fun x hx2 => ⟨wfElems_mem xs hwf x hx2, noShadowElems_mem xs hns x hx2⟩)
        obtain ⟨s, hs⟩ := jsToStringE_ok (.arr xs) hns0
        simp [deepCompareE, helems, jsToStringOptE, hs, Except.map]
      | undef => simp [deepCompareE, jsToStringOptE]
      | nul => simp [deepCompareE, jsToStringOptE]
      | boolean b => simp [deepCompareE, jsToStringOptE, jsToStringE, Except.map]
      | num m => simp [deepCompareE, jsToStringOptE, jsToStringE, Except.map]
      | str s => simp [deepCompareE, jsToStringOptE, jsToStringE, Except.map]
    · cases xs with
      | nil => simp [deepCompareElemsE]
      | cons x rest =>
        have h1 : sizeOf x ≤ n := by simp at h; omega
        have h2 : sizeOf rest ≤ n := by simp at h; omega
        have hx1 := hx x (by simp)
        have hr := ihe rest h2 (fun y hy => hx y (by simp [hy]))
        have hxx := ihv x h1 hx1.1 hx1.2
        simp [deepCompareElemsE, hxx, hr]
    · cases fs with
      | nil => simp [deepCompareFieldsE]
      | cons kv rest =>
        obtain ⟨k, va⟩ := kv
        have h1 : sizeOf va ≤ n := by simp at h; omega
        have h2 : sizeOf rest ≤ n := by simp at h; omega
        obtain ⟨hmem, hwfv, hnsv⟩ := hsub (k, va) (by simp)
        have hlk := lookupKey_of_mem_nodup FS hnd k va hmem
        have hva := ihv va h1 hwfv hnsv
        have hrest := ihf rest FS h2 (fun kv hkv => hsub kv (by simp [hkv])) hnd
        simp [deepCompareFieldsE, hlk, hva, hrest]

/-- Counterexample to claim C9 as stated.  For the composite value holding
the single own entry `toString = 5`, `deepCompare(deepCopy(v), v)` does not
return `true`: after the key loop succeeds, the terminal check calls
`v.toString()` dynamically, the own `toString` shadows the inherited
method with a non-callable value, and the call throws a `TypeError`. -/
theorem C9_counterexample :
    deepCompareE (deepCopy (.obj [("toString", .num 5)])) (.obj [("toString", .num 5)])
      = .error .typeError := by
  rw [deepCopy_id]
  simp [deepCompareE, deepCompareFieldsE, getObjectType, jsToStringOptE, jsToStringE,
    lookupKey, Except.map]

/-- Claim C9, corrected.  For every composite value with JavaScript's
object invariant (no mapping holds a duplicate key) and no own `toString`
key in any visited position, `deepCompare(deepCopy(v), v)` returns `true`:
the recursive copy rebuilds the same value and `deepCompareE` is reflexive
on such values.  As stated — for every composite value — the claim fails:
an own `toString` key (never callable on the modelled universe) makes
`deepCompare`'s terminal dynamic `toString()` call throw a `TypeError`
instead (`C9_counterexample`). -/
theorem C9_deepCopy_compare (v : JSValue) (hc : isComposite v = true)
    (hwf : wfJS v = true) (hns : noShadow v = true) :
    deepCompareE (deepCopy v) v = .ok true := by
  rw [deepCopy_id]
  exact (deepCompareE_refl_trio (sizeOf v)).1 v (le_refl _) hwf hns

/-- Witness for `C9_deepCopy_compare` at a nested composite: a mapping
holding a sequence of the number `1` and a mapping holding `b = "x"`. -/
theorem C9_deepCopy_compare_witness :
    isComposite (.obj [("a", .arr [.num 1, .obj [("b", .str "x")]])]) = true ∧
    wfJS (.obj [("a", .arr [.num 1, .obj [("b", .str "x")]])]) = true ∧
    noShadow (.obj [("a", .arr [.num 1, .obj [("b", .str "x")]])]) = true ∧
    deepCompareE (deepCopy (.obj [("a", .arr [.num 1, .obj [("b", .str "x")]])]))
      (.obj [("a", .arr [.num 1, .obj [("b", .str "x")]])]) = .ok true :=
  ⟨rfl, by decide, by decide,
    C9_deepCopy_compare (.obj [("a", .arr [.num 1, .obj [("b", .str "x")]])])
      rfl (by decide) (by decide)⟩

/-- Claim C10, confirmed.  `deepCompare` is not symmetric and can report
structurally different values as equal: only the first argument's keys are
iterated and the terminal check compares canonical string representations,
which coincide (`"[object Object]"`) for any two plain mappings without own
`toString` keys.  Hence comparing the empty mapping against the mapping
`a = 1` returns `true`, while the converse comparison returns `false` (the
number `1` against an absent member). -/
theorem C10_deepCompare_asymmetric :
    deepCompareE (.obj []) (.obj [("a", .num 1)]) = .ok true ∧
    deepCompareE (.obj [("a", .num 1)]) (.obj []) = .ok false := by
  have h2 : objectProtoKeys.contains "a" = false := by decide
  constructor
  · simp [deepCompareE, deepCompareFieldsE, getObjectType, jsToStringOptE, jsToStringE,
      lookupKey, Except.map]
  · simp [deepCompareE, deepCompareFieldsE, getObjectType, jsToStringOptE, jsToStringE,
      lookupKey, h2, Except.map]

/-! ## Store-based embedding (reference semantics) for the mutation claim C3

The value model above cannot express mutation, so the non-destructive-write
invariant is stated against a second embedding in which every composite
lives at an address of an explicit store.  `[...obj]` / `{...obj}` becomes
the allocation of a fresh node holding the same (shallow) contents, property
assignment becomes an in-place node update, and the theorems assert that
with `copyByRef = false` no pre-existing node is ever updated. -/

/-- Heap address. -/
abbrev Addr := Nat

/-- A JavaScript value under reference semantics: primitives are immediate,
composites are references into the store. -/
inductive HVal where
  | undef
  | nul
  | boolean (b : Bool)
  | num (n : Int)
  | str (s : String)
  | ref (a : Addr)

/-- A heap node: the mutable contents of one composite. -/
inductive HNode where
  | arrN (elems : List HVal)
  | objN (fields : List (String × HVal))

/-- The store: nodes addressed by position.  (Dangling addresses cannot be
produced by the operations below; reading one defaults to an empty
mapping.) -/
abbrev Store := List HNode

def storeGet (s : Store) (a : Addr) : HNode := s.getD a (.objN [])

def storeSet (s : Store) (a : Addr) (node : HNode) : Store := s.set a node

def storeAlloc (s : Store) (node : HNode) : Store × Addr := (s ++ [node], s.length)

def hIsUndef : HVal → Bool
  | .undef => true
  | _ => false

/-- Truthiness under reference semantics (a composite is always truthy). -/
def hTruthy : HVal → Bool
  | .undef => false
  | .nul => false
  | .boolean b => b
  | .num n => n != 0
  | .str s => s ≠ ""
  | .ref _ => true

/-- Property read `v[p]`, reference semantics, own keys and indices: the
frame theorems below are insensitive to which member a step reads, only to
which node it writes, so the prototype chain plays no part here. -/
def hGetProp (s : Store) (v : HVal) (p : String) : HVal :=
  match v with
  | .ref a =>
    match storeGet s a with
    | .objN fs => (lookupKey fs p).getD .undef
    | .arrN xs =>
      match toArrayIndex p with
      | some i => xs.getD i .undef
      | none => if p = "length" then .num xs.length else .undef
  | .str str =>
    match toArrayIndex p with
    | some i =>
      match str.data[i]? with
      | some c => .str (String.mk [c])
      | none => .undef
    | none => if p = "length" then .num str.data.length else .undef
  | _ => .undef

def hListSetPad (xs : List HVal) (i : Nat) (x : HVal) : List HVal :=
  if i < xs.length then xs.set i x
  else xs ++ List.replicate (i - xs.length) .undef ++ [x]

/-- In-place property assignment `node_at_a[p] = x`, own keys and indices:
the frame theorems below depend only on the written address, never on the
key, so the prototype chain plays no part here. -/
def hSetProp (s : Store) (a : Addr) (p : String) (x : HVal) : Store :=
  storeSet s a
    (match storeGet s a with
     | .objN fs => .objN (setKey fs p x)
     | .arrN xs =>
       match toArrayIndex p with
       | some i => .arrN (hListSetPad xs i x)
       | none => .arrN xs)

/-- In-place element assignment `node_at_a[i] = x` for a numeric index. -/
def hSetIdx (s : Store) (a : Addr) (i : Nat) (x : HVal) : Store :=
  storeSet s a
    (match storeGet s a with
     | .arrN xs => .arrN (hListSetPad xs i x)
     | other => other)

/-- The non-wildcard write section of `findDirectPropInObject`
(lines 109–127) applied to the node at `r`, which the invocation has already
de-referenced/cloned: delete on the undefined-marker, assign otherwise. -/
def hDirectSetOn (s : Store) (r : Addr) (prop : String) (value : HVal) : Store :=
  if hIsUndef value then
    match storeGet s r with
    | .arrN xs => storeSet s r (.arrN (spliceOne xs (jsNumberInt prop)))
    | .objN fs => storeSet s r (.objN (removeKey fs prop))
  else hSetProp s r prop value

/-- A re-entrant call `findDirectPropInObject(result, itemIndex, copyByRef,
itemValue)` with a numeric index: the empty-prop and wildcard branches
cannot fire for such a prop, so the invocation is exactly clone-on-entry
followed by the write section.  Returns the address written. -/
def hDirectSet (s : Store) (a : Addr) (prop : String) (copyByRef : Bool)
    (value : HVal) : Store × Addr :=
  let (s0, r) := if copyByRef then (s, a) else storeAlloc s (storeGet s a)
  (hDirectSetOn s0 r prop value, r)

/-- The `while (result.length) findDirectPropInObject(result, 0, true,
undefined)` loop: the fuel is the current length, and every iteration
splices off the head, so the loop stops exactly at the empty array and the
fuel never runs out first. -/
def hWipeFuel : Nat → Store → Addr → Store
  | 0, s, _ => s
  | n + 1, s, r =>
    match storeGet s r with
    | .arrN [] => s
    | .arrN (_ :: _) => hWipeFuel n (hDirectSetOn s r "0" .undef) r
    | .objN _ => s

def hWipe (s : Store) (r : Addr) : Store :=
  hWipeFuel (match storeGet s r with | .arrN xs => xs.length | .objN _ => 0) s r

/-- The end-to-start `forEach` of the non-deleting array wildcard write
(lines 67–85): for each index, a re-entrant single-index write (which, with
`copyByRef = false`, clones the already-cloned result once more), then
`result[itemIndex] = newResult[itemIndex]`. -/
def hWildArr (copyByRef : Bool) (value : HVal) (r : Addr) :
    Store → List Nat → Store
  | s, [] => s
  | s, i :: is =>
    let p := hDirectSet s r (toString i) copyByRef value
    let w := hGetProp p.1 (.ref p.2) (toString i)
    hWildArr copyByRef value r (hSetIdx p.1 r i w) is

/-- The object wildcard write (line 89): every snapshotted key is written
through a full recursive in-place call.  An empty key is a no-op of that
call; a literal `"*"` key would re-enter the wildcard branch with the same
object forever (the source overflows the stack) — the model writes it like
an ordinary key, and even the diverging source run only ever updates the
node at `r`, so the frame theorems below describe the source faithfully up
to that overflow. -/
def hWildObj (value : HVal) (r : Addr) : Store → List String → Store
  | s, [] => s
  | s, k :: ks =>
    if k = "" then hWildObj value r s ks
    else hWildObj value r (hDirectSetOn s r k value) ks

/-- `findDirectPropInObject` under reference semantics. -/
def hDirect (s : Store) (v : HVal) (prop : String) (copyByRef : Bool)
    (args : Option HVal) : Store × HVal :=
  match v with
  | .ref a =>
    -- de-reference: clone the node when copyByRef is false
    let q := if copyByRef then (s, a) else storeAlloc s (storeGet s a)
    let s0 := q.1
    let r := q.2
    if prop = "" then
      match args with
      | some _ => (s0, .ref r)
      | none => (s0, .undef)
    else if prop = "*" then
      match args with
      | some value =>
        match storeGet s0 r with
        | .arrN xs =>
          if hIsUndef value then (hWipe s0 r, .ref r)
          else (hWildArr copyByRef value r s0 ((List.range xs.length).reverse), .ref r)
        | .objN fs => (hWildObj value r s0 (fs.map (fun kv => kv.1)), .ref r)
      | none =>
        match storeGet s0 r with
        | .arrN _ => (s0, .ref r)
        | .objN fs =>
          let al := storeAlloc s0 (.arrN (fs.map (fun kv => kv.2)))
          (al.1, .ref al.2)
    else
      match args with
      | some value => (hDirectSetOn s0 r prop value, .ref r)
      | none => (s0, hGetProp s0 (.ref r) prop)
  | other => (s, other)

/-- Walker for a wildcard write at an intermediate segment: for each index,
`result[index] = recursion(result[index])`; an exception aborts the
`forEach` and propagates. -/
def hElemAt (s : Store) (r : Addr) (i : Nat) : HVal :=
  match storeGet s r with
  | .arrN xs => xs.getD i .undef
  | .objN _ => .undef

def hMapWriteIdx (g : Store → HVal → Store × Except String HVal) (r : Addr) :
    Store → List Nat → Store × Except String Unit
  | s, [] => (s, .ok ())
  | s, i :: is =>
    match g s (hElemAt s r i) with
    | (s1, .error e) => (s1, .error e)
    | (s1, .ok w) => hMapWriteIdx g r (hSetIdx s1 r i w) is

/-- Walker for a wildcard write over the keys of a mapping. -/
def hMapWriteKey (g : Store → HVal → Store × Except String HVal) (r : Addr) :
    Store → List String → Store × Except String Unit
  | s, [] => (s, .ok ())
  | s, k :: ks =>
    match g s (hGetProp s (.ref r) k) with
    | (s1, .error e) => (s1, .error e)
    | (s1, .ok w) => hMapWriteKey g r (hSetProp s1 r k w) ks

/-- Walker for a wildcard read: collect the per-element results. -/
def hMapRead (g : Store → HVal → Store × Except String HVal) :
    Store → List HVal → Store × Except String (List HVal)
  | s, [] => (s, .ok [])
  | s, x :: xs =>
    match g s x with
    | (s1, .error e) => (s1, .error e)
    | (s1, .ok y) =>
      match hMapRead g s1 xs with
      | (s2, .error e) => (s2, .error e)
      | (s2, .ok ys) => (s2, .ok (y :: ys))

/-- `findPropInObject` under reference semantics, on the parsed segment
list; the store is threaded through errors so that partial mutation before
a throw is observable. -/
def hFindPropSegs (s : Store) (v : HVal) (path : List String) (copyByRef : Bool)
    (args : Option HVal) : Store × Except String HVal :=
  match path with
  | [] => (s, .ok v)
  | [p] =>
    let d := hDirect s v p copyByRef args
    (d.1, .ok d.2)
  | p :: q :: rest =>
    let path' := q :: rest
    -- clone-on-entry (lines 163–175): composites are cloned when
    -- copyByRef is false, primitives pass through
    let q0 :=
      if copyByRef then (s, v)
      else
        match v with
        | .ref a =>
          let al := storeAlloc s (storeGet s a)
          (al.1, HVal.ref al.2)
        | other => (s, other)
    let s0 := q0.1
    let result := q0.2
    match args with
    | some value =>
      if p = "*" then
        match result with
        | .ref r =>
          match storeGet s0 r with
          | .arrN xs =>
            let w := hMapWriteIdx
              (fun st item => hFindPropSegs st item path' copyByRef (some value)) r
              s0 (List.range xs.length)
            (w.1, w.2.map (fun _ => HVal.ref r))
          | .objN fs =>
            let w := hMapWriteKey
              (fun st cur => hFindPropSegs st cur path' copyByRef (some value)) r
              s0 (fs.map (fun kv => kv.1))
            (w.1, w.2.map (fun _ => HVal.ref r))
        | other => (s0, .ok other)
      else
        match result with
        | .ref r =>
          let cur := hGetProp s0 (.ref r) p
          if hIsUndef cur then
            -- materialise: result[prop] = {}; then store the recursion back
            let al := storeAlloc s0 (.objN [])
            let s2 := hSetProp al.1 r p (.ref al.2)
            match hFindPropSegs s2 (.ref al.2) path' copyByRef (some value) with
            | (s3, .ok w) => (hSetProp s3 r p w, .ok (.ref r))
            | (s3, .error e) => (s3, .error e)
          else
            match hFindPropSegs s0 cur path' copyByRef (some value) with
            | (s3, .ok w) => (hSetProp s3 r p w, .ok (.ref r))
            | (s3, .error e) => (s3, .error e)
        | _ => (s0, .error "TypeError")
    | none =>
      if p = "*" then
        match result with
        | .ref r =>
          match storeGet s0 r with
          | .arrN xs =>
            match hMapRead (fun st item => hFindPropSegs st item path' copyByRef none)
                s0 xs with
            | (s2, .ok ys) =>
              let al := storeAlloc s2 (.arrN ys)
              (al.1, .ok (.ref al.2))
            | (s2, .error e) => (s2, .error e)
          | .objN fs =>
            match hMapRead (fun st item => hFindPropSegs st item path' copyByRef none)
                s0 (fs.map (fun kv => kv.2)) with
            | (s2, .ok ys) =>
              let al := storeAlloc s2 (.arrN ys)
              (al.1, .ok (.ref al.2))
            | (s2, .error e) => (s2, .error e)
        | .undef => (s0, .error "TypeError")
        | .nul => (s0, .error "TypeError")
        | other =>
          -- fallthrough to line 222: result[prop] || {}
          let cur := hGetProp s0 other p
          if hTruthy cur then hFindPropSegs s0 cur path' copyByRef none
          else
            let al := storeAlloc s0 (.objN [])
            hFindPropSegs al.1 (.ref al.2) path' copyByRef none
      else
        match result with
        | .undef => (s0, .error "TypeError")
        | .nul => (s0, .error "TypeError")
        | other =>
          let cur := hGetProp s0 other p
          if hTruthy cur then hFindPropSegs s0 cur path' copyByRef none
          else
            let al := storeAlloc s0 (.objN [])
            hFindPropSegs al.1 (.ref al.2) path' copyByRef none
termination_by structural path

/-- `findPropInObject` under reference semantics. -/
def hFindProp (s : Store) (v : HVal) (pathStr : String) (copyByRef : Bool)
    (args : Option HVal) : Store × Except String HVal :=
  hFindPropSegs s v (parsePath pathStr) copyByRef args

/-! ## Frame lemmas: a write with `copyByRef = false` never updates a
pre-existing node -/

/-- The new store extends the old one and agrees with it on every address
below `n` (taking `n` to be the old length: every pre-existing node — the
original root and everything reachable from it included — is unchanged). -/
def StoreExt (n : Nat) (s sNew : Store) : Prop :=
  s.length ≤ sNew.length ∧ ∀ i, i < n → sNew[i]? = s[i]?

theorem storeExt_refl (n : Nat) (s : Store) : StoreExt n s s :=
  ⟨le_refl _, fun _ _ => rfl⟩

theorem storeExt_trans {n : Nat} {s t u : Store}
    (h1 : StoreExt n s t) (h2 : StoreExt n t u) : StoreExt n s u :=
  ⟨le_trans h1.1 h2.1, fun i hi => (h2.2 i hi).trans (h1.2 i hi)⟩

theorem storeExt_alloc {n : Nat} {s : Store} (node : HNode) (hn : n ≤ s.length) :
    StoreExt n s (storeAlloc s node).1 := by
  refine ⟨by simp [storeAlloc], fun i hi => ?_⟩
  exact List.getElem?_append_left (lt_of_lt_of_le hi hn)

theorem storeExt_set {n : Nat} {s : Store} {a : Addr} (node : HNode) (ha : n ≤ a) :
    StoreExt n s (storeSet s a node) := by
  refine ⟨by simp [storeSet], fun i hi => ?_⟩
  exact List.getElem?_set_ne (by omega)

theorem storeExt_hSetProp {n : Nat} {s : Store} {a : Addr} (p : String) (x : HVal)
    (ha : n ≤ a) : StoreExt n s (hSetProp s a p x) := by
  unfold hSetProp
  exact storeExt_set _ ha

theorem storeExt_hSetIdx {n : Nat} {s : Store} {a : Addr} (i : Nat) (x : HVal)
    (ha : n ≤ a) : StoreExt n s (hSetIdx s a i x) := by
  unfold hSetIdx
  exact storeExt_set _ ha

theorem hDirectSetOn_frame {n : Nat} {s : Store} {r : Addr} (prop : String)
    (value : HVal) (hr : n ≤ r) : StoreExt n s (hDirectSetOn s r prop value) := by
  unfold hDirectSetOn
  split
  · split
    · exact storeExt_set _ hr
    · exact storeExt_set _ hr
  · exact storeExt_hSetProp _ _ hr

theorem hDirectSet_frame {n : Nat} {s : Store} {a : Addr} (prop : String)
    (copyByRef : Bool) (value : HVal) (hn : n ≤ s.length) (ha : n ≤ a) :
    StoreExt n s (hDirectSet s a prop copyByRef value).1 := by
  unfold hDirectSet
  cases copyByRef with
  | true => exact hDirectSetOn_frame _ _ ha
  | false =>
    exact storeExt_trans (storeExt_alloc _ hn) (hDirectSetOn_frame _ _ hn)

theorem hWipeFuel_frame (fuel : Nat) {n : Nat} {r : Addr} (hr : n ≤ r) :
    ∀ s : Store, StoreExt n s (hWipeFuel fuel s r) := by
  induction fuel with
  | zero => intro s; exact storeExt_refl n s
  | succ m ih =>
    intro s
    unfold hWipeFuel
    split
    · exact storeExt_refl n s
    · exact storeExt_trans (hDirectSetOn_frame _ _ hr) (ih _)
    · exact storeExt_refl n s

theorem hWipe_frame {n : Nat} {s : Store} {r : Addr} (hr : n ≤ r) :
    StoreExt n s (hWipe s r) := by
  unfold hWipe
  exact hWipeFuel_frame _ hr s

theorem hWildArr_frame {n : Nat} {r : Addr} (copyByRef : Bool) (value : HVal)
    (hr : n ≤ r) : ∀ (is : List Nat) (s : Store), n ≤ s.length →
    StoreExt n s (hWildArr copyByRef value r s is) := by
  intro is
  induction is with
  | nil => intro s hn; exact storeExt_refl n s
  | cons i rest ih =>
    intro s hn
    unfold hWildArr
    have h1 : StoreExt n s (hDirectSet s r (toString i) copyByRef value).1 :=
      hDirectSet_frame _ _ _ hn hr
    have h2 : StoreExt n (hDirectSet s r (toString i) copyByRef value).1
        (hSetIdx (hDirectSet s r (toString i) copyByRef value).1 r i
          (hGetProp (hDirectSet s r (toString i) copyByRef value).1
            (.ref (hDirectSet s r (toString i) copyByRef value).2) (toString i))) :=
      storeExt_hSetIdx _ _ hr
    refine storeExt_trans (storeExt_trans h1 h2) (ih _ ?_)
    have := (storeExt_trans h1 h2).1
    omega

theorem hWildObj_frame {n : Nat} {r : Addr} (value : HVal) (hr : n ≤ r) :
    ∀ (ks : List String) (s : Store), StoreExt n s (hWildObj value r s ks) := by
  intro ks
  induction ks with
  | nil => intro s; exact storeExt_refl n s
  | cons k rest ih =>
    intro s
    unfold hWildObj
    split
    · exact ih s
    · exact storeExt_trans (hDirectSetOn_frame _ _ hr) (ih _)

/-- A direct write with `copyByRef = false` (and any direct read) updates no
pre-existing node. -/
theorem hDirect_frame_false {n : Nat} (s : Store) (v : HVal) (prop : String)
    (args : Option HVal) (hn : n ≤ s.length) :
    StoreExt n s (hDirect s v prop false args).1 := by
  cases v with
  | ref a =>
    unfold hDirect
    simp only [Bool.false_eq_true, if_false]
    have halloc : StoreExt n s (storeAlloc s (storeGet s a)).1 := storeExt_alloc _ hn
    have hr : n ≤ (storeAlloc s (storeGet s a)).2 := by simp [storeAlloc]; omega
    have hlen : n ≤ (storeAlloc s (storeGet s a)).1.length := le_trans hn halloc.1
    split
    · split
      · exact halloc
      · exact halloc
    · split
      · split
        · split
          · split
            · exact storeExt_trans halloc (hWipe_frame hr)
            · exact storeExt_trans halloc (hWildArr_frame _ _ hr _ _ hlen)
          · exact storeExt_trans halloc (hWildObj_frame _ hr _ _)
        · split
          · exact halloc
          · exact storeExt_trans halloc (storeExt_alloc _ hlen)
      · split
        · exact storeExt_trans halloc (hDirectSetOn_frame _ _ hr)
        · exact halloc
  | undef => exact storeExt_refl n s
  | nul => exact storeExt_refl n s
  | boolean b => exact storeExt_refl n s
  | num m => exact storeExt_refl n s
  | str t => exact storeExt_refl n s

/-- A direct read updates no pre-existing node in either copy mode. -/
theorem hDirect_read_frame {n : Nat} (s : Store) (v : HVal) (prop : String)
    (c : Bool) (hn : n ≤ s.length) : StoreExt n s (hDirect s v prop c none).1 := by
  cases c with
  | false => exact hDirect_frame_false s v prop none hn
  | true =>
    cases v with
    | ref a =>
      unfold hDirect
      simp only [if_true]
      split
      · exact storeExt_refl n s
      · split
        · split
          · exact storeExt_refl n s
          · exact storeExt_alloc _ hn
        · exact storeExt_refl n s
    | undef => exact storeExt_refl n s
    | nul => exact storeExt_refl n s
    | boolean b => exact storeExt_refl n s
    | num m => exact storeExt_refl n s
    | str t => exact storeExt_refl n s

theorem hMapWriteIdx_frame {n : Nat} (g : Store → HVal → Store × Except String HVal)
    (r : Addr) (hg : ∀ st item, n ≤ st.length → StoreExt n st (g st item).1)
    (hr : n ≤ r) : ∀ (is : List Nat) (s : Store), n ≤ s.length →
    StoreExt n s (hMapWriteIdx g r s is).1 := by
  intro is
  induction is with
  | nil => intro s hn; exact storeExt_refl n s
  | cons i rest ih =>
    intro s hn
    unfold hMapWriteIdx
    split
    · next s1 e heq =>
      have h1 := hg s (hElemAt s r i) hn
      rw [heq] at h1
      exact h1
    · next s1 w heq =>
      have h1 := hg s (hElemAt s r i) hn
      rw [heq] at h1
      have h2 : StoreExt n s1 (hSetIdx s1 r i w) := storeExt_hSetIdx _ _ hr
      refine storeExt_trans (storeExt_trans h1 h2) (ih _ ?_)
      have h3 := (storeExt_trans h1 h2).1
      omega

theorem hMapWriteKey_frame {n : Nat} (g : Store → HVal → Store × Except String HVal)
    (r : Addr) (hg : ∀ st item, n ≤ st.length → StoreExt n st (g st item).1)
    (hr : n ≤ r) : ∀ (ks : List String) (s : Store), n ≤ s.length →
    StoreExt n s (hMapWriteKey g r s ks).1 := by
  intro ks
  induction ks with
  | nil => intro s hn; exact storeExt_refl n s
  | cons k rest ih =>
    intro s hn
    unfold hMapWriteKey
    split
    · next s1 e heq =>
      have h1 := hg s (hGetProp s (.ref r) k) hn
      rw [heq] at h1
      exact h1
    · next s1 w heq =>
      have h1 := hg s (hGetProp s (.ref r) k) hn
      rw [heq] at h1
      have h2 : StoreExt n s1 (hSetProp s1 r k w) := storeExt_hSetProp _ _ hr
      refine storeExt_trans (storeExt_trans h1 h2) (ih _ ?_)
      have h3 := (storeExt_trans h1 h2).1
      omega

theorem hMapRead_frame {n : Nat} (g : Store → HVal → Store × Except String HVal)
    (hg : ∀ st item, n ≤ st.length → StoreExt n st (g st item).1) :
    ∀ (xs : List HVal) (s : Store), n ≤ s.length →
    StoreExt n s (hMapRead g s xs).1 := by
  intro xs
  induction xs with
  | nil => intro s hn; exact storeExt_refl n s
  | cons x rest ih =>
    intro s hn
    unfold hMapRead
    split
    · next s1 e heq =>
      have h1 := hg s x hn
      rw [heq] at h1
      exact h1
    · next s1 y heq =>
      have h1 := hg s x hn
      rw [heq] at h1
      have h2 : StoreExt n s1 (hMapRead g s1 rest).1 := ih s1 (le_trans hn h1.1)
      split
      · next s2 e heq2 =>
        rw [heq2] at h2
        exact storeExt_trans h1 h2
      · next s2 ys heq2 =>
        rw [heq2] at h2
        exact storeExt_trans h1 h2

/-- A multi-segment write with `copyByRef = false` updates no pre-existing
node: every mutation targets the freshly allocated clone. -/
theorem hFindPropSegs_write_frame : ∀ (path : List String) (n : Nat) (s : Store)
    (v : HVal) (value : HVal), n ≤ s.length →
    StoreExt n s (hFindPropSegs s v path false (some value)).1 := by
  intro path
  induction path with
  | nil => intro n s v value hn; exact storeExt_refl n s
  | cons p tail ih =>
    intro n s v value hn
    cases tail with
    | nil => exact hDirect_frame_false s v p (some value) hn
    | cons qq rest =>
      cases v with
      | ref a =>
        have halloc : StoreExt n s (storeAlloc s (storeGet s a)).1 := storeExt_alloc _ hn
        have hr : n ≤ (storeAlloc s (storeGet s a)).2 := by
          simp only [storeAlloc]
          omega
        have hlen : n ≤ (storeAlloc s (storeGet s a)).1.length := le_trans hn halloc.1
        simp only [hFindPropSegs, Bool.false_eq_true, if_false]
        by_cases hp : p = "*"
        · rw [if_pos hp]
          split
          · exact storeExt_trans halloc
              (hMapWriteIdx_frame _ _ (fun st item hst => ih n st item value hst) hr _ _ hlen)
          · exact storeExt_trans halloc
              (hMapWriteKey_frame _ _ (fun st item hst => ih n st item value hst) hr _ _ hlen)
        · rw [if_neg hp]
          split
          · -- materialisation: alloc {}, store it, recurse, store back
            have halloc2 : StoreExt n (storeAlloc s (storeGet s a)).1
                (storeAlloc (storeAlloc s (storeGet s a)).1 (.objN [])).1 :=
              storeExt_alloc _ hlen
            have hset : StoreExt n
                (storeAlloc (storeAlloc s (storeGet s a)).1 (.objN [])).1
                (hSetProp (storeAlloc (storeAlloc s (storeGet s a)).1 (.objN [])).1
                  (storeAlloc s (storeGet s a)).2 p
                  (.ref (storeAlloc (storeAlloc s (storeGet s a)).1 (.objN [])).2)) :=
              storeExt_hSetProp _ _ hr
            have hpre := storeExt_trans halloc (storeExt_trans halloc2 hset)
            have hrec := ih n _ (.ref (storeAlloc (storeAlloc s (storeGet s a)).1 (.objN [])).2)
              value (le_trans hn hpre.1)
            split
            · next s3 w heq =>
              rw [heq] at hrec
              exact storeExt_trans (storeExt_trans hpre hrec) (storeExt_hSetProp _ _ hr)
            · next s3 e heq =>
              rw [heq] at hrec
              exact storeExt_trans hpre hrec
          · have hrec := ih n _ (hGetProp (storeAlloc s (storeGet s a)).1
              (.ref (storeAlloc s (storeGet s a)).2) p) value hlen
            split
            · next s3 w heq =>
              rw [heq] at hrec
              exact storeExt_trans (storeExt_trans halloc hrec) (storeExt_hSetProp _ _ hr)
            · next s3 e heq =>
              rw [heq] at hrec
              exact storeExt_trans halloc hrec
      | undef =>
        simp only [hFindPropSegs, Bool.false_eq_true, if_false]
        by_cases hp : p = "*"
        · rw [if_pos hp]; exact storeExt_refl n s
        · rw [if_neg hp]; exact storeExt_refl n s
      | nul =>
        simp only [hFindPropSegs, Bool.false_eq_true, if_false]
        by_cases hp : p = "*"
        · rw [if_pos hp]; exact storeExt_refl n s
        · rw [if_neg hp]; exact storeExt_refl n s
      | boolean b =>
        simp only [hFindPropSegs, Bool.false_eq_true, if_false]
        by_cases hp : p = "*"
        · rw [if_pos hp]; exact storeExt_refl n s
        · rw [if_neg hp]; exact storeExt_refl n s
      | num m =>
        simp only [hFindPropSegs, Bool.false_eq_true, if_false]
        by_cases hp : p = "*"
        · rw [if_pos hp]; exact storeExt_refl n s
        · rw [if_neg hp]; exact storeExt_refl n s
      | str t =>
        simp only [hFindPropSegs, Bool.false_eq_true, if_false]
        by_cases hp : p = "*"
        · rw [if_pos hp]; exact storeExt_refl n s
        · rw [if_neg hp]; exact storeExt_refl n s

/-- A read updates no pre-existing node, in either copy mode (the only store
activity of a read is allocation: the pointless clone, the fallbacks of
`result[prop] || \x7b\x7d`, and the arrays collecting wildcard results). -/
theorem hFindPropSegs_read_frame : ∀ (path : List String) (n : Nat) (s : Store)
    (v : HVal) (c : Bool), n ≤ s.length →
    StoreExt n s (hFindPropSegs s v path c none).1 := by
  intro path
  induction path with
  | nil => intro n s v c hn; exact storeExt_refl n s
  | cons p tail ih =>
    intro n s v c hn
    cases tail with
    | nil => exact hDirect_read_frame s v p c hn
    | cons qq rest =>
      have hg : ∀ st item, n ≤ st.length →
          StoreExt n st (hFindPropSegs st item (qq :: rest) c none).1 :=
        fun st item hst => ih n st item c hst
      cases c with
      | true =>
        simp only [hFindPropSegs, eq_self_iff_true, if_true]
        cases v with
        | ref a =>
          by_cases hp : p = "*"
          · rw [if_pos hp]
            split
            · rename_i r heqr
              injection heqr with hra
              subst hra
              split
              · rename_i xs heqn
                split
                · rename_i s2 ys heq2
                  have h1 := hMapRead_frame _ hg xs s hn
                  rw [heq2] at h1
                  exact storeExt_trans h1 (storeExt_alloc _ (le_trans hn h1.1))
                · rename_i s2 e heq2
                  have h1 := hMapRead_frame _ hg xs s hn
                  rw [heq2] at h1
                  exact h1
              · rename_i fs heqn
                split
                · rename_i s2 ys heq2
                  have h1 := hMapRead_frame _ hg (fs.map (fun kv => kv.2)) s hn
                  rw [heq2] at h1
                  exact storeExt_trans h1 (storeExt_alloc _ (le_trans hn h1.1))
                · rename_i s2 e heq2
                  have h1 := hMapRead_frame _ hg (fs.map (fun kv => kv.2)) s hn
                  rw [heq2] at h1
                  exact h1
            · exact storeExt_refl n s
            · exact storeExt_refl n s
            · rename_i hxr hxu hxn
              exact absurd rfl (hxr a)
          · rw [if_neg hp]
            split
            · exact storeExt_refl n s
            · exact storeExt_refl n s
            · split
              · exact hg _ _ hn
              · exact storeExt_trans (storeExt_alloc _ hn)
                  (hg _ _ (le_trans hn (storeExt_alloc (n := n) (.objN []) hn).1))
        | undef =>
          by_cases hp : p = "*"
          · rw [if_pos hp]
            split
            · rename_i r heqr; cases heqr
            · exact storeExt_refl n s
            · exact storeExt_refl n s
            · rename_i hxr hxu hxn; exact absurd rfl hxu
          · rw [if_neg hp]
            split
            · exact storeExt_refl n s
            · exact storeExt_refl n s
            · rename_i hxu hxn; exact absurd rfl hxu
        | nul =>
          by_cases hp : p = "*"
          · rw [if_pos hp]
            split
            · rename_i r heqr; cases heqr
            · exact storeExt_refl n s
            · exact storeExt_refl n s
            · rename_i hxr hxu hxn; exact absurd rfl hxn
          · rw [if_neg hp]
            split
            · exact storeExt_refl n s
            · exact storeExt_refl n s
            · rename_i hxu hxn; exact absurd rfl hxn
        | boolean b =>
          by_cases hp : p = "*"
          · rw [if_pos hp]
            split
            · rename_i r heqr; cases heqr
            · exact storeExt_refl n s
            · exact storeExt_refl n s
            · split
              · exact hg _ _ hn
              · exact storeExt_trans (storeExt_alloc _ hn)
                  (hg _ _ (le_trans hn (storeExt_alloc (n := n) (.objN []) hn).1))
          · rw [if_neg hp]
            split
            · exact storeExt_refl n s
            · exact storeExt_refl n s
            · split
              · exact hg _ _ hn
              · exact storeExt_trans (storeExt_alloc _ hn)
                  (hg _ _ (le_trans hn (storeExt_alloc (n := n) (.objN []) hn).1))
        | num m =>
          by_cases hp : p = "*"
          · rw [if_pos hp]
            split
            · rename_i r heqr; cases heqr
            · exact storeExt_refl n s
            · exact storeExt_refl n s
            · split
              · exact hg _ _ hn
              · exact storeExt_trans (storeExt_alloc _ hn)
                  (hg _ _ (le_trans hn (storeExt_alloc (n := n) (.objN []) hn).1))
          · rw [if_neg hp]
            split
            · exact storeExt_refl n s
            · exact storeExt_refl n s
            · split
              · exact hg _ _ hn
              · exact storeExt_trans (storeExt_alloc _ hn)
                  (hg _ _ (le_trans hn (storeExt_alloc (n := n) (.objN []) hn).1))
        | str t =>
          by_cases hp : p = "*"
          · rw [if_pos hp]
            split
            · rename_i r heqr; cases heqr
            · exact storeExt_refl n s
            · exact storeExt_refl n s
            · split
              · exact hg _ _ hn
              · exact storeExt_trans (storeExt_alloc _ hn)
                  (hg _ _ (le_trans hn (storeExt_alloc (n := n) (.objN []) hn).1))
          · rw [if_neg hp]
            split
            · exact storeExt_refl n s
            · exact storeExt_refl n s
            · split
              · exact hg _ _ hn
              · exact storeExt_trans (storeExt_alloc _ hn)
                  (hg _ _ (le_trans hn (storeExt_alloc (n := n) (.objN []) hn).1))
      | false =>
        simp only [hFindPropSegs, Bool.false_eq_true, if_false]
        cases v with
        | ref a =>
          have halloc : StoreExt n s (storeAlloc s (storeGet s a)).1 := storeExt_alloc _ hn
          have hlen : n ≤ (storeAlloc s (storeGet s a)).1.length := le_trans hn halloc.1
          by_cases hp : p = "*"
          · rw [if_pos hp]
            split
            · rename_i r heqr
              injection heqr with hra
              subst hra
              split
              · rename_i xs heqn
                split
                · rename_i s2 ys heq2
                  have h1 := hMapRead_frame _ hg xs _ hlen
                  rw [heq2] at h1
                  exact storeExt_trans halloc
                    (storeExt_trans h1 (storeExt_alloc _ (le_trans hlen h1.1)))
                · rename_i s2 e heq2
                  have h1 := hMapRead_frame _ hg xs _ hlen
                  rw [heq2] at h1
                  exact storeExt_trans halloc h1
              · rename_i fs heqn
                split
                · rename_i s2 ys heq2
                  have h1 := hMapRead_frame _ hg (fs.map (fun kv => kv.2)) _ hlen
                  rw [heq2] at h1
                  exact storeExt_trans halloc
                    (storeExt_trans h1 (storeExt_alloc _ (le_trans hlen h1.1)))
                · rename_i s2 e heq2
                  have h1 := hMapRead_frame _ hg (fs.map (fun kv => kv.2)) _ hlen
                  rw [heq2] at h1
                  exact storeExt_trans halloc h1
            · exact halloc
            · exact halloc
            · rename_i hxr hxu hxn
              exact absurd rfl (hxr (storeAlloc s (storeGet s a)).2)
          · rw [if_neg hp]
            split
            · exact halloc
            · exact halloc
            · split
              · exact storeExt_trans halloc (hg _ _ hlen)
              · exact storeExt_trans halloc (storeExt_trans (storeExt_alloc _ hlen)
                  (hg _ _ (le_trans hlen (storeExt_alloc (n := n) (.objN []) hlen).1)))
        | undef =>
          by_cases hp : p = "*"
          · rw [if_pos hp]
            split
            · rename_i r heqr; cases heqr
            · exact storeExt_refl n s
            · exact storeExt_refl n s
            · rename_i hxr hxu hxn; exact absurd rfl hxu
          · rw [if_neg hp]
            split
            · exact storeExt_refl n s
            · exact storeExt_refl n s
            · rename_i hxu hxn; exact absurd rfl hxu
        | nul =>
          by_cases hp : p = "*"
          · rw [if_pos hp]
            split
            · rename_i r heqr; cases heqr
            · exact storeExt_refl n s
            · exact storeExt_refl n s
            · rename_i hxr hxu hxn; exact absurd rfl hxn
          · rw [if_neg hp]
            split
            · exact storeExt_refl n s
            · exact storeExt_refl n s
            · rename_i hxu hxn; exact absurd rfl hxn
        | boolean b =>
          by_cases hp : p = "*"
          · rw [if_pos hp]
            split
            · rename_i r heqr; cases heqr
            · exact storeExt_refl n s
            · exact storeExt_refl n s
            · split
              · exact hg _ _ hn
              · exact storeExt_trans (storeExt_alloc _ hn)
                  (hg _ _ (le_trans hn (storeExt_alloc (n := n) (.objN []) hn).1))
          · rw [if_neg hp]
            split
            · exact storeExt_refl n s
            · exact storeExt_refl n s
            · split
              · exact hg _ _ hn
              · exact storeExt_trans (storeExt_alloc _ hn)
                  (hg _ _ (le_trans hn (storeExt_alloc (n := n) (.objN []) hn).1))
        | num m =>
          by_cases hp : p = "*"
          · rw [if_pos hp]
            split
            · rename_i r heqr; cases heqr
            · exact storeExt_refl n s
            · exact storeExt_refl n s
            · split
              · exact hg _ _ hn
              · exact storeExt_trans (storeExt_alloc _ hn)
                  (hg _ _ (le_trans hn (storeExt_alloc (n := n) (.objN []) hn).1))
          · rw [if_neg hp]
            split
            · exact storeExt_refl n s
            · exact storeExt_refl n s
            · split
              · exact hg _ _ hn
              · exact storeExt_trans (storeExt_alloc _ hn)
                  (hg _ _ (le_trans hn (storeExt_alloc (n := n) (.objN []) hn).1))
        | str t =>
          by_cases hp : p = "*"
          · rw [if_pos hp]
            split
            · rename_i r heqr; cases heqr
            · exact storeExt_refl n s
            · exact storeExt_refl n s
            · split
              · exact hg _ _ hn
              · exact storeExt_trans (storeExt_alloc _ hn)
                  (hg _ _ (le_trans hn (storeExt_alloc (n := n) (.objN []) hn).1))
          · rw [if_neg hp]
            split
            · exact storeExt_refl n s
            · exact storeExt_refl n s
            · split
              · exact hg _ _ hn
              · exact storeExt_trans (storeExt_alloc _ hn)
                  (hg _ _ (le_trans hn (storeExt_alloc (n := n) (.objN []) hn).1))

theorem map_eq_ok {α β : Type} (f : α → β) (e : Except String α) (b : β)
    (h : e.map f = .ok b) : ∃ a, e = .ok a ∧ b = f a := by
  cases e with
  | ok a =>
    refine ⟨a, rfl, ?_⟩
    simp only [Except.map] at h
    injection h with h1
    exact h1.symm
  | error e => simp [Except.map] at h

/-- A single-segment write with `copyByRef = false` on a composite returns a
reference to the freshly allocated clone. -/
theorem hDirect_write_newRoot (s : Store) (a : Addr) (prop : String) (x : HVal) :
    ∃ b, (hDirect s (.ref a) prop false (some x)).2 = .ref b ∧ s.length ≤ b := by
  refine ⟨s.length, ?_, le_refl _⟩
  simp only [hDirect, Bool.false_eq_true, if_false]
  by_cases h1 : prop = ""
  · rw [if_pos h1]
    rfl
  · rw [if_neg h1]
    by_cases h2 : prop = "*"
    · rw [if_pos h2]
      split
      · split
        · rfl
        · rfl
      · rfl
    · rw [if_neg h2]
      rfl

/-- A write with `copyByRef = false` on a composite root that returns
normally returns a reference to a node allocated by the call (the clone),
never the original root. -/
theorem hFindPropSegs_write_newRoot : ∀ (path : List String) (s : Store) (a : Addr)
    (x : HVal) (s2 : Store) (w : HVal), path ≠ [] →
    hFindPropSegs s (.ref a) path false (some x) = (s2, .ok w) →
    ∃ b, w = .ref b ∧ s.length ≤ b := by
  intro path s a x s2 w hne h
  cases path with
  | nil => exact absurd rfl hne
  | cons p tail =>
    cases tail with
    | nil =>
      obtain ⟨b, hb, hble⟩ := hDirect_write_newRoot s a p x
      have h2 := congrArg Prod.snd h
      simp only [hFindPropSegs] at h2
      injection h2 with h3
      exact ⟨b, by rw [← h3]; exact hb, hble⟩
    | cons qq rest =>
      revert h
      simp only [hFindPropSegs, Bool.false_eq_true, if_false]
      by_cases hp : p = "*"
      · rw [if_pos hp]
        split
        · intro h
          have h2 := congrArg Prod.snd h
          simp only [] at h2
          obtain ⟨u, hu, hw⟩ := map_eq_ok _ _ _ h2
          exact ⟨(storeAlloc s (storeGet s a)).2, hw, le_refl _⟩
        · intro h
          have h2 := congrArg Prod.snd h
          simp only [] at h2
          obtain ⟨u, hu, hw⟩ := map_eq_ok _ _ _ h2
          exact ⟨(storeAlloc s (storeGet s a)).2, hw, le_refl _⟩
      · rw [if_neg hp]
        split
        · split
          · rename_i s3 w3 heq3
            intro h
            have h2 := congrArg Prod.snd h
            simp only [] at h2
            injection h2 with h3
            exact ⟨(storeAlloc s (storeGet s a)).2, h3.symm, le_refl _⟩
          · rename_i s3 e heq3
            intro h
            have h2 := congrArg Prod.snd h
            simp at h2
        · split
          · rename_i s3 w3 heq3
            intro h
            have h2 := congrArg Prod.snd h
            simp only [] at h2
            injection h2 with h3
            exact ⟨(storeAlloc s (storeGet s a)).2, h3.symm, le_refl _⟩
          · rename_i s3 e heq3
            intro h
            have h2 := congrArg Prod.snd h
            simp at h2

theorem splitGo_ne_nil (cs : List Char) : ∀ acc, splitGo acc cs ≠ [] := by
  induction cs with
  | nil => intro acc; simp [splitGo]
  | cons c rest ih =>
    intro acc
    simp only [splitGo]
    split
    · exact List.cons_ne_nil _ _
    · exact ih _

theorem parsePath_ne_nil (s : String) : parsePath s ≠ [] :=
  splitGo_ne_nil _ []

/-- Claim C3, confirmed (non-destructive-write invariant).  In the
reference-semantics embedding: a write through `findDirectPropInObject` or
`findPropInObject` with `copyByRef = false` leaves every pre-existing store
node — the original root and every composite reachable from it included —
unchanged (conjuncts 1 and 3, also covering the partially mutated store at
a thrown `TypeError`); a read never mutates its input in either copy mode
(conjuncts 2 and 4); and a write on a composite root that returns normally
returns a reference to a node freshly allocated by the call — a new root —
never the original (conjunct 5). -/
theorem C3_nondestructive :
    (∀ (s : Store) (v : HVal) (prop : String) (args : Option HVal),
      StoreExt s.length s (hDirect s v prop false args).1) ∧
    (∀ (s : Store) (v : HVal) (prop : String) (c : Bool),
      StoreExt s.length s (hDirect s v prop c none).1) ∧
    (∀ (s : Store) (v : HVal) (pathStr : String) (x : HVal),
      StoreExt s.length s (hFindProp s v pathStr false (some x)).1) ∧
    (∀ (s : Store) (v : HVal) (pathStr : String) (c : Bool),
      StoreExt s.length s (hFindProp s v pathStr c none).1) ∧
    (∀ (s : Store) (a : Addr) (pathStr : String) (x : HVal) (s2 : Store) (w : HVal),
      hFindProp s (.ref a) pathStr false (some x) = (s2, .ok w) →
      ∃ b, w = .ref b ∧ s.length ≤ b) :=
  ⟨fun s v prop args => hDirect_frame_false s v prop args (le_refl _),
   fun s v prop c => hDirect_read_frame s v prop c (le_refl _),
   fun s v pathStr x =>
     hFindPropSegs_write_frame (parsePath pathStr) s.length s v x (le_refl _),
   fun s v pathStr c =>
     hFindPropSegs_read_frame (parsePath pathStr) s.length s v c (le_refl _),
   fun s a pathStr x s2 w h =>
     hFindPropSegs_write_newRoot (parsePath pathStr) s a x s2 w
       (parsePath_ne_nil pathStr) h⟩

/-- Witness for `C3_nondestructive`: writing `2` at `"a"` into the stored
mapping `\x7ba: 1\x7d` (address `0`) leaves node `0` unchanged and returns the
fresh address `1`. -/
theorem C3_nondestructive_witness :
    ((hFindProp [HNode.objN [("a", HVal.num 1)]] (.ref 0) "a" false
        (some (.num 2))).1)[0]? = some (HNode.objN [("a", HVal.num 1)]) ∧
    (∃ b, HVal.ref 1 = HVal.ref b ∧
      ([HNode.objN [("a", HVal.num 1)]] : Store).length ≤ b) :=
  ⟨by
    have h := (C3_nondestructive.2.2.1 [HNode.objN [("a", HVal.num 1)]]
      (.ref 0) "a" (.num 2)).2 0 (by decide)
    rw [h]
    rfl,
   C3_nondestructive.2.2.2.2 [HNode.objN [("a", HVal.num 1)]] 0 "a" (.num 2)
     [HNode.objN [("a", HVal.num 1)], HNode.objN [("a", HVal.num 2)]] (.ref 1) rfl⟩

end ObjHelpers